import Mathlib

/-!
Verification of the asset-catalog core of this repository against its
specification.  The Python sources under `app/assets/` are shallowly embedded:
the database is a record of row lists, the filesystem is a list of file
entries, timestamps and row ids are natural numbers, and every service or
query function is translated into an executable Lean function that mirrors
the control flow of its Python counterpart.  Functions that can raise return
`Except String`.  Parts of the repository that are referenced but whose
sources are not available (the SQLAlchemy models' cascade configuration and a
few query modules) are modelled from the specification; each such definition
carries a doc comment saying so.
-/

set_option maxHeartbeats 1600000

/-- JSON values, the type of `user_metadata` entries.  Numbers are modelled
as exact rationals (the source converts Python ints/floats through
`Decimal(str(value))`). -/
inductive Json where
  | null : Json
  | bool (b : Bool) : Json
  | num (q : Rat) : Json
  | str (s : String) : Json
  | arr (elems : List Json) : Json
  | obj (fields : List (String × Json)) : Json
  deriving Repr

namespace Json

mutual

/-- Decidable equality for `Json`, written by hand because the automatic
deriving does not handle the nested `List` occurrences. -/
def decEq : (a b : Json) → Decidable (a = b)
  | .null, .null => isTrue rfl
  | .bool a, .bool b =>
      match Bool.decEq a b with
      | isTrue h => isTrue (by rw [h])
      | isFalse h => isFalse (fun he => h (by injection he))
  | .num a, .num b =>
      match instDecidableEqRat a b with
      | isTrue h => isTrue (by rw [h])
      | isFalse h => isFalse (fun he => h (by injection he))
  | .str a, .str b =>
      match String.decEq a b with
      | isTrue h => isTrue (by rw [h])
      | isFalse h => isFalse (fun he => h (by injection he))
  | .arr a, .arr b =>
      match decEqList a b with
      | isTrue h => isTrue (by rw [h])
      | isFalse h => isFalse (fun he => h (by injection he))
  | .obj a, .obj b =>
      match decEqObj a b with
      | isTrue h => isTrue (by rw [h])
      | isFalse h => isFalse (fun he => h (by injection he))
  | .null, .bool _ => isFalse (fun h => Json.noConfusion h)
  | .null, .num _ => isFalse (fun h => Json.noConfusion h)
  | .null, .str _ => isFalse (fun h => Json.noConfusion h)
  | .null, .arr _ => isFalse (fun h => Json.noConfusion h)
  | .null, .obj _ => isFalse (fun h => Json.noConfusion h)
  | .bool _, .null => isFalse (fun h => Json.noConfusion h)
  | .bool _, .num _ => isFalse (fun h => Json.noConfusion h)
  | .bool _, .str _ => isFalse (fun h => Json.noConfusion h)
  | .bool _, .arr _ => isFalse (fun h => Json.noConfusion h)
  | .bool _, .obj _ => isFalse (fun h => Json.noConfusion h)
  | .num _, .null => isFalse (fun h => Json.noConfusion h)
  | .num _, .bool _ => isFalse (fun h => Json.noConfusion h)
  | .num _, .str _ => isFalse (fun h => Json.noConfusion h)
  | .num _, .arr _ => isFalse (fun h => Json.noConfusion h)
  | .num _, .obj _ => isFalse (fun h => Json.noConfusion h)
  | .str _, .null => isFalse (fun h => Json.noConfusion h)
  | .str _, .bool _ => isFalse (fun h => Json.noConfusion h)
  | .str _, .num _ => isFalse (fun h => Json.noConfusion h)
  | .str _, .arr _ => isFalse (fun h => Json.noConfusion h)
  | .str _, .obj _ => isFalse (fun h => Json.noConfusion h)
  | .arr _, .null => isFalse (fun h => Json.noConfusion h)
  | .arr _, .bool _ => isFalse (fun h => Json.noConfusion h)
  | .arr _, .num _ => isFalse (fun h => Json.noConfusion h)
  | .arr _, .str _ => isFalse (fun h => Json.noConfusion h)
  | .arr _, .obj _ => isFalse (fun h => Json.noConfusion h)
  | .obj _, .null => isFalse (fun h => Json.noConfusion h)
  | .obj _, .bool _ => isFalse (fun h => Json.noConfusion h)
  | .obj _, .num _ => isFalse (fun h => Json.noConfusion h)
  | .obj _, .str _ => isFalse (fun h => Json.noConfusion h)
  | .obj _, .arr _ => isFalse (fun h => Json.noConfusion h)

/-- Decidable equality of `Json` lists. -/
def decEqList : (xs ys : List Json) → Decidable (xs = ys)
  | [], [] => isTrue rfl
  | x :: xs, y :: ys =>
      match decEq x y with
      | isTrue h1 =>
          match decEqList xs ys with
          | isTrue h2 => isTrue (by rw [h1, h2])
          | isFalse h2 => isFalse (fun he => h2 (by injection he))
      | isFalse h1 => isFalse (fun he => h1 (by injection he))
  | [], _ :: _ => isFalse (fun h => List.noConfusion h)
  | _ :: _, [] => isFalse (fun h => List.noConfusion h)

/-- Decidable equality of `Json` object field lists. -/
def decEqObj : (xs ys : List (String × Json)) → Decidable (xs = ys)
  | [], [] => isTrue rfl
  | (k, v) :: xs, (k2, v2) :: ys =>
      match String.decEq k k2 with
      | isTrue hk =>
          match decEq v v2 with
          | isTrue hv =>
              match decEqObj xs ys with
              | isTrue ht => isTrue (by rw [hk, hv, ht])
              | isFalse ht => isFalse (fun he => ht (by injection he))
          | isFalse hv =>
              isFalse (fun he => hv (by injection he with h1 h2; injection h1))
      | isFalse hk =>
          isFalse (fun he => hk (by injection he with h1 h2; injection h1))
  | [], _ :: _ => isFalse (fun h => List.noConfusion h)
  | _ :: _, [] => isFalse (fun h => List.noConfusion h)

end

instance : DecidableEq Json := Json.decEq

end Json

/-! ### Metadata dictionaries

`user_metadata` is a Python `dict[str, Json]`; we model it as an association
list read through its first occurrence of each key (a faithful reading of a
Python dict, which cannot hold a key twice). -/

abbrev MetaDict := List (String × Json)

/-- First-occurrence lookup in a metadata dictionary. -/
def dlookup : MetaDict → String → Option Json
  | [], _ => none
  | (k, v) :: rest, key => if k == key then some v else dlookup rest key

/-- `d[key] = value` on a Python dict: replace the value at the first
occurrence of `key`, or append the pair if `key` is absent. -/
def dictSet : MetaDict → String → Json → MetaDict
  | [], key, value => [(key, value)]
  | (k, v) :: rest, key, value =>
      if k == key then (k, value) :: rest else (k, v) :: dictSet rest key value

/-- `base.update(m)` on Python dicts: fold `dictSet` over the entries of `m`. -/
def mergeDict (base : MetaDict) (m : MetaDict) : MetaDict :=
  m.foldl (fun acc kv => dictSet acc kv.1 kv.2) base

/-- The keys of a metadata dictionary. -/
def dictKeys (d : MetaDict) : List String := d.map Prod.fst

/-- Python dict equality (`==` / `!=`): both dictionaries associate the same
value to every key of either. -/
def dictEqv (a b : MetaDict) : Bool :=
  (dictKeys a ++ dictKeys b).all (fun k => dlookup a k == dlookup b k)

/-! ### Rows and database state -/

/-- An `Asset` row: a content blob identified by (nullable) hash.
From `app/assets/database/models.py` via the spec data model. -/
structure AssetRow where
  id : Nat
  hash : Option String
  sizeBytes : Int
  mimeType : Option String
  deriving DecidableEq, Repr

/-- An `AssetCacheState` row: an on-disk locator for an asset. -/
structure CacheStateRow where
  id : Nat
  assetId : Nat
  filePath : String
  mtimeNs : Option Int
  needsVerify : Bool
  deriving DecidableEq, Repr

/-- An `AssetInfo` row: a named, tagged handle for an asset. -/
structure AssetInfoRow where
  id : Nat
  assetId : Nat
  ownerId : String
  name : String
  previewId : Option Nat
  userMetadata : Option MetaDict
  createdAt : Nat
  updatedAt : Nat
  lastAccessTime : Nat
  deriving DecidableEq, Repr

/-- A `Tag` vocabulary row. -/
structure TagRow where
  name : String
  tagType : String
  deriving DecidableEq, Repr

/-- An `AssetInfoTag` link row. -/
structure InfoTagRow where
  assetInfoId : Nat
  tagName : String
  origin : String
  addedAt : Nat
  deriving DecidableEq, Repr

/-- An `AssetInfoMeta` projection row. -/
structure MetaRow where
  assetInfoId : Nat
  key : String
  ordinal : Nat
  valStr : Option String
  valNum : Option Rat
  valBool : Option Bool
  valJson : Option Json
  deriving DecidableEq, Repr

/-- The whole database.  `nextId` is the id allocator standing in for uuid /
autoincrement generation, so that runs are deterministic. -/
structure DB where
  assets : List AssetRow
  cacheStates : List CacheStateRow
  infos : List AssetInfoRow
  tags : List TagRow
  infoTags : List InfoTagRow
  metas : List MetaRow
  nextId : Nat
  deriving DecidableEq, Repr

/-- A file on disk, with the two `stat` fields the code reads. -/
structure FileEnt where
  path : String
  size : Int
  mtimeNs : Int
  deriving DecidableEq, Repr

/-- The filesystem: the set of existing files. -/
structure FS where
  files : List FileEnt
  deriving DecidableEq, Repr

/-- `os.path.isfile`. -/
def FS.isFile (fs : FS) (p : String) : Bool := fs.files.any (fun f => f.path == p)

/-- `os.stat`, returning `none` when the file does not exist. -/
def FS.stat? (fs : FS) (p : String) : Option FileEnt :=
  fs.files.find? (fun f => f.path == p)

/-- Remove one path from the filesystem (`os.remove`). -/
def FS.remove (fs : FS) (p : String) : FS :=
  ⟨fs.files.filter (fun f => !(f.path == p))⟩

/-- Remove several paths from the filesystem. -/
def FS.removeAll (fs : FS) (ps : List String) : FS :=
  ⟨fs.files.filter (fun f => !(ps.contains f.path))⟩

/-! ### String primitives

Python string methods are modelled on the character list underlying the
Lean string, so that every definition reduces by computation (the built-in
`String.toLower`, `String.trim`, `String.startsWith` and `String.drop` are
defined by well-founded recursion and do not). -/

/-- The whitespace alphabet of Python's `str.strip()`. -/
def isPySpace (c : Char) : Bool :=
  c == ' ' || c == '\t' || c == '\n' || c == '\r' || c == '\x0b' || c == '\x0c'

/-- Python `str.strip()`. -/
def pyStrip (s : String) : String :=
  ⟨((s.data.dropWhile isPySpace).reverse.dropWhile isPySpace).reverse⟩

/-- Python `str.lower()` (over the ASCII range the code cares about). -/
def pyLower (s : String) : String := ⟨s.data.map Char.toLower⟩

/-- Python `str.startswith` / SQL `LIKE base%`. -/
def strStartsWith (s pre : String) : Bool := pre.data.isPrefixOf s.data

/-- Drop the first `n` characters of a string. -/
def strDrop (s : String) (n : Nat) : String := ⟨s.data.drop n⟩

/-! ### Helpers (`app/assets/helpers.py`) -/

/-- `normalize_tags` from `app/assets/helpers.py`: strip and lowercase each
tag, dropping entries that are empty after stripping.  (The docstring of the
source claims deduplication but the code, confirmed by its unit test
`test_does_not_deduplicate`, keeps duplicates.) -/
def normalizeTags (tags : List String) : List String :=
  (tags.filter (fun t => !(pyStrip t == ""))).map (fun t => pyLower (pyStrip t))

/-- `pick_best_live_path` from `app/assets/helpers.py`: among the cache
states, prefer the first existing path with `needs_verify = False`, then the
first existing path, else the empty string. -/
def pickBestLivePath (fs : FS) (states : List CacheStateRow) : String :=
  let alive := states.filter (fun s => !(s.filePath == "") && fs.isFile s.filePath)
  match alive.find? (fun s => !s.needsVerify) with
  | some s => s.filePath
  | none =>
      match alive with
      | [] => ""
      | s :: _ => s.filePath

/-- `fast_asset_file_check` from `app/assets/services/scanner.py`:
the db mtime must be present and equal to the on-disk one, and when db size
is positive it must match the on-disk size. -/
def fastAssetFileCheck (mtimeDb : Option Int) (sizeDb : Int) (stat : FileEnt) : Bool :=
  match mtimeDb with
  | none => false
  | some m =>
      if !(m == stat.mtimeNs) then false
      else if sizeDb > 0 then stat.size == sizeDb
      else true

/-- Python truthiness of an optional string (`None` and `""` are falsy). -/
def strTruthy : Option String → Bool
  | none => false
  | some s => !(s == "")

/-- `Modelled from the spec:` `compute_relative_filename` lives in
`app/assets/services/path_utils.py`, which is not among the sources; §4.1 of
the spec defines it as the path relative to its root's base.  `bases` is the
flattened list of configured base directories. -/
def computeRelativeFilename (bases : List String) (p : String) : Option String :=
  match bases.find? (fun b => strStartsWith p (b ++ "/")) with
  | some b => some (strDrop p (b.data.length + 1))
  | none => none

/-! ### Metadata projection (`app/assets/database/queries/asset_info.py`) -/

/-- A projection row produced by `project_kv`, before the `asset_info_id` is
attached. -/
structure ProjRow where
  key : String
  ordinal : Nat
  valStr : Option String := none
  valNum : Option Rat := none
  valBool : Option Bool := none
  valJson : Option Json := none
  deriving DecidableEq, Repr

/-- `is_scalar` from `app/assets/database/queries/asset_info.py`:
`None`, booleans, numbers and strings are scalars. -/
def isScalar : Json → Bool
  | .null => true
  | .bool _ => true
  | .num _ => true
  | .str _ => true
  | .arr _ => false
  | .obj _ => false

/-- One typed row for a scalar list element at index `i` (the body of the
all-scalars loop of `project_kv`; the trailing `val_json` arm mirrors the
source's unreachable fallback). -/
def projScalarRow (key : String) (i : Nat) : Json → ProjRow
  | .null => { key := key, ordinal := i }
  | .bool b => { key := key, ordinal := i, valBool := some b }
  | .num q => { key := key, ordinal := i, valNum := some q }
  | .str s => { key := key, ordinal := i, valStr := some s }
  | other => { key := key, ordinal := i, valJson := some other }

/-- `project_kv` from `app/assets/database/queries/asset_info.py`: turn one
metadata key / value pair into ordered typed projection rows. -/
def projectKv (key : String) (value : Json) : List ProjRow :=
  match value with
  | .null => [{ key := key, ordinal := 0 }]
  | .bool b => [{ key := key, ordinal := 0, valBool := some b }]
  | .num q => [{ key := key, ordinal := 0, valNum := some q }]
  | .str s => [{ key := key, ordinal := 0, valStr := some s }]
  | .arr xs =>
      if xs.all isScalar then
        xs.enum.map (fun p => projScalarRow key p.1 p.2)
      else
        xs.enum.map (fun p => { key := key, ordinal := p.1, valJson := some p.2 })
  | .obj kvs => [{ key := key, ordinal := 0, valJson := some (Json.obj kvs) }]

/-! ### Query layer -/

/-- Replace the asset row with matching primary key (an ORM flush of a
mutated `Asset` object). -/
def replaceAssetById (l : List AssetRow) (a : AssetRow) : List AssetRow :=
  l.map (fun r => if r.id == a.id then a else r)

/-- Replace the cache-state row with matching primary key. -/
def replaceStateById (l : List CacheStateRow) (s : CacheStateRow) : List CacheStateRow :=
  l.map (fun r => if r.id == s.id then s else r)

/-- Replace the info row with matching primary key. -/
def replaceInfoById (l : List AssetInfoRow) (i : AssetInfoRow) : List AssetInfoRow :=
  l.map (fun r => if r.id == i.id then i else r)

/-- The owner-visibility predicate `_visible_owner_clause` from
`app/assets/database/queries/asset_info.py`: rows owned by `""` are visible
to everyone, other rows only to their owner. -/
def visibleOwner (callerOwnerId rowOwnerId : String) : Bool :=
  let o := pyStrip callerOwnerId
  if o == "" then rowOwnerId == "" else rowOwnerId == "" || rowOwnerId == o

/-- `upsert_asset` from `app/assets/database/queries/asset.py`:
insert keyed by `hash` with `ON CONFLICT DO NOTHING`, re-read, and on an
existing row update `size_bytes` when it differs and the new one is
positive, and `mime_type` when supplied and different.
Returns `(db, asset, created, updated)`. -/
def upsertAsset (db : DB) (assetHash : String) (sizeBytes : Int)
    (mimeType : Option String) : Except String (DB × AssetRow × Bool × Bool) :=
  let conflict := db.assets.any (fun r => r.hash == some assetHash)
  let created := !conflict
  let db1 : DB :=
    if conflict then db
    else
      { db with
        assets := db.assets ++
          [{ id := db.nextId, hash := some assetHash, sizeBytes := sizeBytes,
             mimeType := if strTruthy mimeType then mimeType else none }],
        nextId := db.nextId + 1 }
  match db1.assets.find? (fun r => r.hash == some assetHash) with
  | none => .error "Asset row not found after upsert."
  | some asset =>
      if created then .ok (db1, asset, true, false)
      else
        let a1 := if !(asset.sizeBytes == sizeBytes) && sizeBytes > 0 then
            { asset with sizeBytes := sizeBytes } else asset
        let a2 := if strTruthy mimeType && !(a1.mimeType == mimeType) then
            { a1 with mimeType := mimeType } else a1
        let changed := !(a2 == asset)
        let updated := changed
        let db2 := if changed then { db1 with assets := replaceAssetById db1.assets a2 } else db1
        .ok (db2, a2, false, updated)

/-- `Modelled from the spec:` `upsert_cache_state` lives in
`app/assets/database/queries/cache_state.py`, which is not among the sources.
Spec §4.4 step 2: upsert `AssetCacheState(file_path)`, set `mtime_ns` from
the caller, clear `needs_verify`; its unit tests pin
`(created, updated) = (true, false)` on insert, `(false, false)` when the
mtime is unchanged and `(false, true)` when it changes. -/
def upsertCacheState (db : DB) (assetId : Nat) (filePath : String)
    (mtimeNs : Int) : DB × Bool × Bool :=
  match db.cacheStates.find? (fun s => s.filePath == filePath) with
  | none =>
      ({ db with
         cacheStates := db.cacheStates ++
           [{ id := db.nextId, assetId := assetId, filePath := filePath,
              mtimeNs := some mtimeNs, needsVerify := false }],
         nextId := db.nextId + 1 }, true, false)
  | some s =>
      let s2 : CacheStateRow := { s with mtimeNs := some mtimeNs, needsVerify := false }
      let updated := !(s.mtimeNs == some mtimeNs)
      if s2 == s then (db, false, false)
      else ({ db with cacheStates := replaceStateById db.cacheStates s2 }, false, updated)

/-- `Modelled from the spec:` `list_cache_states_by_asset_id` lives in
`app/assets/database/queries/cache_state.py`, which is not among the
sources; it returns the cache states of one asset. -/
def listCacheStatesByAssetId (db : DB) (assetId : Nat) : List CacheStateRow :=
  db.cacheStates.filter (fun s => s.assetId == assetId)

/-- `get_or_create_asset_info` from
`app/assets/database/queries/asset_info.py`: try to insert a fresh
`AssetInfo`; on a `(asset_id, owner_id, name)` conflict return the existing
row.  The insert-then-requery of the source is folded into one lookup, which
has the same meaning against a database honouring the unique constraint. -/
def getOrCreateAssetInfo (db : DB) (now : Nat) (assetId : Nat) (ownerId : String)
    (name : String) (previewId : Option Nat) : DB × AssetInfoRow × Bool :=
  match db.infos.find?
      (fun i => i.assetId == assetId && i.ownerId == ownerId && i.name == name) with
  | some i => (db, i, false)
  | none =>
      let info : AssetInfoRow :=
        { id := db.nextId, assetId := assetId, ownerId := ownerId, name := name,
          previewId := previewId, userMetadata := none,
          createdAt := now, updatedAt := now, lastAccessTime := now }
      ({ db with infos := db.infos ++ [info], nextId := db.nextId + 1 }, info, true)

/-- `update_asset_info_timestamps` from
`app/assets/database/queries/asset_info.py`: overwrite `preview_id` when a
different one is supplied, bump `updated_at`, and raise `last_access_time`
only if the new value is newer.  Returns the new database and row. -/
def updateAssetInfoTimestamps (db : DB) (now : Nat) (info : AssetInfoRow)
    (previewId : Option Nat) : DB × AssetInfoRow :=
  let i1 := match previewId with
    | some p => if !(info.previewId == some p) then { info with previewId := some p } else info
    | none => info
  let i2 := { i1 with updatedAt := now }
  let i3 := if i2.lastAccessTime < now then { i2 with lastAccessTime := now } else i2
  ({ db with infos := replaceInfoById db.infos i3 }, i3)

/-- `replace_asset_info_metadata_projection` from
`app/assets/database/queries/asset_info.py`: store the new metadata object
on the info row, delete all projection rows of the info, and re-insert the
projection of the new object (nothing when it is null or empty). -/
def replaceAssetInfoMetadataProjection (db : DB) (now : Nat) (assetInfoId : Nat)
    (userMetadata : Option MetaDict) : Except String DB :=
  match db.infos.find? (fun i => i.id == assetInfoId) with
  | none => .error "AssetInfo not found"
  | some info =>
      let info2 :=
        { info with userMetadata := some (userMetadata.getD []), updatedAt := now }
      let db1 := { db with infos := replaceInfoById db.infos info2 }
      let db2 := { db1 with
        metas := db1.metas.filter (fun m => !(m.assetInfoId == assetInfoId)) }
      match userMetadata with
      | none => .ok db2
      | some md =>
          if md.isEmpty then .ok db2
          else
            let rows := md.foldl (fun acc kv =>
              acc ++ (projectKv kv.1 kv.2).map (fun r =>
                ({ assetInfoId := assetInfoId, key := r.key, ordinal := r.ordinal,
                   valStr := r.valStr, valNum := r.valNum, valBool := r.valBool,
                   valJson := r.valJson } : MetaRow))) []
            .ok { db2 with metas := db2.metas ++ rows }

/-- `asset_info_exists_for_asset_id` from
`app/assets/database/queries/asset_info.py`. -/
def assetInfoExistsForAssetId (db : DB) (assetId : Nat) : Bool :=
  db.infos.any (fun i => i.assetId == assetId)

/-- The ids of all infos of one asset (used by the tag helpers). -/
def infoIdsOfAsset (db : DB) (assetId : Nat) : List Nat :=
  (db.infos.filter (fun i => i.assetId == assetId)).map (fun i => i.id)

/-- `delete_asset_info_by_id` from
`app/assets/database/queries/asset_info.py`: delete the row when the owner
clause lets the caller see it; the foreign keys cascade to the info's tag
links and metadata rows (`Modelled from the spec:` the cascade configuration
is in `models.py`, which is not among the sources). -/
def deleteAssetInfoById (db : DB) (assetInfoId : Nat) (ownerId : String) : DB × Bool :=
  let pred := fun (i : AssetInfoRow) => i.id == assetInfoId && visibleOwner ownerId i.ownerId
  if db.infos.any pred then
    ({ db with
       infos := db.infos.filter (fun i => !pred i),
       infoTags := db.infoTags.filter (fun l => !(l.assetInfoId == assetInfoId)),
       metas := db.metas.filter (fun m => !(m.assetInfoId == assetInfoId)) }, true)
  else (db, false)

/-- `Modelled from the spec:` deleting an `Asset` row cascades to its cache
states and infos, and from those to tag links and metadata rows; the cascade
configuration is in `models.py`, which is not among the sources (its effect
is pinned by the unit tests of `delete_assets_by_ids`). -/
def deleteAssetCascade (db : DB) (assetId : Nat) : DB :=
  let removedInfoIds := infoIdsOfAsset db assetId
  { db with
    assets := db.assets.filter (fun a => !(a.id == assetId)),
    cacheStates := db.cacheStates.filter (fun s => !(s.assetId == assetId)),
    infos := db.infos.filter (fun i => !(i.assetId == assetId)),
    infoTags := db.infoTags.filter (fun l => !(removedInfoIds.contains l.assetInfoId)),
    metas := db.metas.filter (fun m => !(removedInfoIds.contains m.assetInfoId)) }

/-! ### Tag queries (`app/assets/database/queries/tags.py`, not among the
sources; modelled from spec §3/§4.4 and the unit tests in
`tests-unit/assets_test/queries/test_tags.py`). -/

/-- Keep the first occurrence of each element (`seen` accumulates the
elements already emitted). -/
def firstDedupAux {α : Type} [BEq α] : List α → List α → List α
  | [], _ => []
  | x :: xs, seen =>
      if seen.contains x then firstDedupAux xs seen
      else x :: firstDedupAux xs (x :: seen)

/-- Keep the first occurrence of each element. -/
def firstDedup {α : Type} [BEq α] (l : List α) : List α := firstDedupAux l []

/-- `Modelled from the spec:` `ensure_tags_exist` (in the missing
`queries/tags.py`) normalizes the names and inserts any that are not yet in
the `Tag` vocabulary with the given type. -/
def ensureTagsExist (db : DB) (tags : List String) (tagType : String) : DB :=
  let norm := firstDedup (normalizeTags tags)
  norm.foldl (fun db t =>
    if db.tags.any (fun r => r.name == t) then db
    else { db with tags := db.tags ++ [{ name := t, tagType := tagType }] }) db

/-- `Modelled from the spec:` `add_tags_to_asset_info` (in the missing
`queries/tags.py`) raises when the info does not exist, ensures the
vocabulary when `create_if_missing`, and inserts the missing links
(`ON CONFLICT DO NOTHING`), reporting added and already-present names. -/
def addTagsToAssetInfo (db : DB) (now : Nat) (assetInfoId : Nat)
    (tags : List String) (origin : String) (createIfMissing : Bool) :
    Except String (DB × List String × List String) :=
  if !(db.infos.any (fun i => i.id == assetInfoId)) then
    .error "AssetInfo not found"
  else
    let norm := firstDedup (normalizeTags tags)
    let db := if createIfMissing then ensureTagsExist db norm "user" else db
    let step := fun (acc : DB × List String × List String) (t : String) =>
      let (db, added, already) := acc
      if db.infoTags.any (fun l => l.assetInfoId == assetInfoId && l.tagName == t) then
        (db, added, already ++ [t])
      else
        ({ db with infoTags := db.infoTags ++
             [{ assetInfoId := assetInfoId, tagName := t, origin := origin,
                addedAt := now }] }, added ++ [t], already)
    .ok (norm.foldl step (db, [], []))

/-- `_validate_tags_exist` from `app/assets/services/ingest.py` as a
predicate: every tag is in the vocabulary. -/
def validateTagsExist (db : DB) (tags : List String) : Bool :=
  tags.all (fun t => db.tags.any (fun r => r.name == t))

/-- `Modelled from the spec:` `remove_missing_tag_for_asset_id` (in the
missing `queries/tags.py`) removes the `missing` system-tag links from every
info of the asset. -/
def removeMissingTagForAssetId (db : DB) (assetId : Nat) : DB :=
  let ids := infoIdsOfAsset db assetId
  { db with infoTags := db.infoTags.filter (fun l =>
      !(l.tagName == "missing" && ids.contains l.assetInfoId)) }

/-- `Modelled from the spec:` `add_missing_tag_for_asset_id` (in the missing
`queries/tags.py`) ensures the reserved `missing` system tag exists and
idempotently links it to every info of the asset. -/
def addMissingTagForAssetId (db : DB) (now : Nat) (assetId : Nat)
    (origin : String) : DB :=
  let db := ensureTagsExist db ["missing"] "system"
  let ids := infoIdsOfAsset db assetId
  ids.foldl (fun db i =>
    if db.infoTags.any (fun l => l.assetInfoId == i && l.tagName == "missing") then db
    else { db with infoTags := db.infoTags ++
        [{ assetInfoId := i, tagName := "missing", origin := origin, addedAt := now }] }) db

/-- `get_asset_by_hash` from `app/assets/database/queries/asset.py`. -/
def getAssetByHash (db : DB) (assetHash : String) : Option AssetRow :=
  db.assets.find? (fun r => r.hash == some assetHash)

/-- `Modelled from the spec:` `get_asset_tags` (in the missing
`queries/tags.py`) returns the tag names linked to one info. -/
def getAssetTags (db : DB) (assetInfoId : Nat) : List String :=
  (db.infoTags.filter (fun l => l.assetInfoId == assetInfoId)).map (fun l => l.tagName)

/-- `Modelled from the spec:` `set_asset_info_tags` (in the missing
`queries/tags.py`) replaces the link set of an info with the normalized
input, per its unit tests: links absent from the input are removed, links
missing from the database are added. -/
def setAssetInfoTags (db : DB) (now : Nat) (assetInfoId : Nat)
    (tags : List String) (origin : String) : DB :=
  let norm := firstDedup (normalizeTags tags)
  let db := ensureTagsExist db norm "user"
  let db := { db with infoTags := db.infoTags.filter (fun l =>
      !(l.assetInfoId == assetInfoId) || norm.contains l.tagName) }
  norm.foldl (fun db t =>
    if db.infoTags.any (fun l => l.assetInfoId == assetInfoId && l.tagName == t) then db
    else { db with infoTags := db.infoTags ++
        [{ assetInfoId := assetInfoId, tagName := t, origin := origin, addedAt := now }] }) db

/-! ### Ingest service (`app/assets/services/ingest.py`) -/

/-- The flags `ingest_file_from_path` returns. -/
structure IngestResult where
  assetCreated : Bool
  assetUpdated : Bool
  stateCreated : Bool
  stateUpdated : Bool
  assetInfoId : Option Nat
  deriving DecidableEq, Repr

/-- `_compute_filename_for_asset` from `app/assets/services/ingest.py`. -/
def computeFilenameForAsset (bases : List String) (fs : FS) (db : DB)
    (assetId : Nat) : Option String :=
  let primary := pickBestLivePath fs (listCacheStatesByAssetId db assetId)
  if primary == "" then none else computeRelativeFilename bases primary

/-- `_update_metadata_with_filename` from `app/assets/services/ingest.py`:
merge the caller metadata into the stored metadata, set the derived
`filename` key from the best live path, and reproject only when the result
differs from the stored dictionary. -/
def updateMetadataWithFilename (bases : List String) (fs : FS) (db : DB)
    (now : Nat) (assetInfoId : Nat) (assetId : Nat) (info : AssetInfoRow)
    (userMetadata : Option MetaDict) : Except String DB :=
  let computed := computeFilenameForAsset bases fs db assetId
  let current := info.userMetadata.getD []
  let m1 := match userMetadata with
    | some md => if md.isEmpty then current else mergeDict current md
    | none => current
  let m2 := match computed with
    | some f => if f == "" then m1 else dictSet m1 "filename" (Json.str f)
    | none => m1
  if dictEqv m2 current then .ok db
  else replaceAssetInfoMetadataProjection db now assetInfoId (some m2)

/-- The metadata object `_update_metadata_with_filename` computes before
comparing with the stored one: merge the caller metadata into the current
dictionary and set the derived `filename` key when one was computed. -/
def ingestMergedMeta (current : MetaDict) (um : Option MetaDict)
    (cf : Option String) : MetaDict :=
  let m1 := match um with
    | some md => if md.isEmpty then current else mergeDict current md
    | none => current
  match cf with
  | some f => if f == "" then m1 else dictSet m1 "filename" (Json.str f)
  | none => m1

/-- `ingest_file_from_path` from `app/assets/services/ingest.py`:
validate the preview, upsert the asset and the cache state, optionally
create or refresh the info with its tags and metadata projection, and clear
the `missing` tag.  `bases` is the configured root-directory list consumed
by the derived-filename computation, `now` the clock reading, and ids stand
in for uuids. -/
def ingestFileFromPath (bases : List String) (fs : FS) (db : DB) (now : Nat)
    (absPath : String) (assetHash : String) (sizeBytes : Int) (mtimeNs : Int)
    (mimeType : Option String) (infoName : Option String) (ownerId : String)
    (previewId : Option Nat) (userMetadata : Option MetaDict) (tags : List String)
    (tagOrigin : String) (requireExistingTags : Bool) :
    Except String (DB × IngestResult) :=
  let locator := absPath
  let previewId := match previewId with
    | some p => if db.assets.any (fun a => a.id == p) then some p else none
    | none => none
  match upsertAsset db assetHash sizeBytes mimeType with
  | .error e => .error e
  | .ok (db1, asset, assetCreated, assetUpdated) =>
    let su := upsertCacheState db1 asset.id locator mtimeNs
    let db2 := su.1
    let stateCreated := su.2.1
    let stateUpdated := su.2.2
    if strTruthy infoName then
      let gc := getOrCreateAssetInfo db2 now asset.id ownerId (infoName.getD "") previewId
      let db3 := gc.1
      let infoCreated := gc.2.2
      let ui := if infoCreated then (db3, gc.2.1)
                else updateAssetInfoTimestamps db3 now gc.2.1 previewId
      let db4 := ui.1
      let info := ui.2
      let outId := info.id
      let norm := normalizeTags tags
      let tagsRes : Except String DB :=
        if norm.isEmpty then .ok db4
        else if requireExistingTags && !(validateTagsExist db4 norm) then
          .error "Unknown tags"
        else
          match addTagsToAssetInfo db4 now outId norm tagOrigin (!requireExistingTags) with
          | .error e => .error e
          | .ok (db5, _, _) => .ok db5
      match tagsRes with
      | .error e => .error e
      | .ok db5 =>
        match updateMetadataWithFilename bases fs db5 now outId asset.id info userMetadata with
        | .error e => .error e
        | .ok db6 =>
          let db7 := removeMissingTagForAssetId db6 asset.id
          .ok (db7, { assetCreated := assetCreated, assetUpdated := assetUpdated,
                      stateCreated := stateCreated, stateUpdated := stateUpdated,
                      assetInfoId := some outId })
    else
      let db7 := removeMissingTagForAssetId db2 asset.id
      .ok (db7, { assetCreated := assetCreated, assetUpdated := assetUpdated,
                  stateCreated := stateCreated, stateUpdated := stateUpdated,
                  assetInfoId := none })

/-- `register_existing_asset` from `app/assets/services/ingest.py`: create
or return an info for content already known by hash; on a new info, write
the metadata (with derived filename) and the tag set. -/
def registerExistingAsset (bases : List String) (fs : FS) (db : DB) (now : Nat)
    (assetHash : String) (name : String) (userMetadata : Option MetaDict)
    (tags : Option (List String)) (tagOrigin : String) (ownerId : String) :
    Except String (DB × AssetInfoRow × List String × Bool) :=
  match getAssetByHash db assetHash with
  | none => .error "No asset with hash"
  | some asset =>
    let gc := getOrCreateAssetInfo db now asset.id ownerId name none
    let db1 := gc.1
    let info := gc.2.1
    let infoCreated := gc.2.2
    if !infoCreated then
      .ok (db1, info, getAssetTags db1 info.id, false)
    else
      let computed := computeFilenameForAsset bases fs db1 asset.id
      let newMeta0 := userMetadata.getD []
      let newMeta := match computed with
        | some f => if f == "" then newMeta0 else dictSet newMeta0 "filename" (Json.str f)
        | none => newMeta0
      let metaRes : Except String DB :=
        if newMeta.isEmpty then .ok db1
        else replaceAssetInfoMetadataProjection db1 now info.id (some newMeta)
      match metaRes with
      | .error e => .error e
      | .ok db2 =>
        let db3 := match tags with
          | some ts => setAssetInfoTags db2 now info.id ts tagOrigin
          | none => db2
        .ok (db3, info, getAssetTags db3 info.id, true)

/-! ### Management service (`app/assets/services/asset_management.py`) -/

/-- `delete_asset_reference` from
`app/assets/services/asset_management.py`: delete the info (owner checked);
when asked and the asset has no other info, delete the asset (cascading its
cache states) and, after the commit, remove its files from disk.  Returns
`(db, fs, removedPaths, deleted)`; `removedPaths` are the files removed
after the commit, in order. -/
def deleteAssetReference (db : DB) (fs : FS) (assetInfoId : Nat)
    (ownerId : String) (deleteContentIfOrphan : Bool) :
    DB × FS × List String × Bool :=
  let assetId := (db.infos.find? (fun i => i.id == assetInfoId)).map (fun i => i.assetId)
  let dl := deleteAssetInfoById db assetInfoId ownerId
  let db1 := dl.1
  if !dl.2 then (db1, fs, [], false)
  else
    match assetId, deleteContentIfOrphan with
    | none, _ => (db1, fs, [], true)
    | some _, false => (db1, fs, [], true)
    | some aid, true =>
      if assetInfoExistsForAssetId db1 aid then (db1, fs, [], true)
      else
        let states := listCacheStatesByAssetId db1 aid
        let filePaths := (states.filter (fun s => !(s.filePath == ""))).map (fun s => s.filePath)
        let db2 := if db1.assets.any (fun a => a.id == aid) then deleteAssetCascade db1 aid else db1
        let removed := filePaths.filter (fun p => fs.isFile p)
        (db2, fs.removeAll removed, removed, true)

/-! ### Hash validation (`app/assets/api/upload.py`, `routes.py`) -/

/-- Lowercase hexadecimal digits, the alphabet `validate_hash_format`
accepts for the digest. -/
def isHexLowerChar (c : Char) : Bool :=
  ("0123456789abcdef".toList).contains c

/-- `validate_hash_format` from `app/assets/api/upload.py`: strip and
lowercase, require a `:`, require the algorithm `blake3` and a nonempty
digest of hex characters; return the canonical string, or `none` for the
`INVALID_HASH` error. -/
def validateHashChars (cs : List Char) : Option (List Char) :=
  if cs.isEmpty then none
  else if !(cs.contains ':') then none
  else
    let algo := cs.takeWhile (fun c => !(c == ':'))
    let digest := (cs.dropWhile (fun c => !(c == ':'))).drop 1
    if !(algo == "blake3".data) || digest.isEmpty
        || digest.any (fun c => !(isHexLowerChar c)) then
      none
    else some (algo ++ ':' :: digest)

/-- `validate_hash_format` proper: strip and lowercase, then run the
character-level check. -/
def validateHashFormat (s : String) : Option String :=
  (validateHashChars (pyLower (pyStrip s)).data).map String.mk

/-- The inline hash check of `head_asset_by_hash` in
`app/assets/api/routes.py`: `true` when the request proceeds to the
existence query, `false` when it answers `400 INVALID_HASH`. -/
def headHashCharsAccepts (cs : List Char) : Bool :=
  if cs.isEmpty || !(cs.contains ':') then false
  else
    let algo := cs.takeWhile (fun c => !(c == ':'))
    let digest := (cs.dropWhile (fun c => !(c == ':'))).drop 1
    !(!(algo == "blake3".data) || digest.isEmpty
        || digest.any (fun c => !(isHexLowerChar c)))

/-- The HEAD-handler check proper, on the stripped lowercased path
parameter. -/
def headHashAccepts (hashParam : String) : Bool :=
  headHashCharsAccepts (pyLower (pyStrip hashParam)).data

/-! ### Listing sort and order (`app/assets/manager.py`,
`app/assets/database/queries/asset_info.py`) -/

/-- The columns `list_asset_infos_page` can sort by. -/
inductive SortColumn where
  | name
  | createdAt
  | updatedAt
  | lastAccessTime
  | sizeBytes
  deriving DecidableEq, Repr

/-- `_safe_sort_field` from `app/assets/manager.py`. -/
def safeSortField (requested : String) : String :=
  if requested == "" then "created_at"
  else
    let v := pyLower requested
    if v == "name" || v == "created_at" || v == "updated_at" || v == "size"
        || v == "last_access_time" then v
    else "created_at"

/-- The order sanitization inline in `list_assets`
(`app/assets/manager.py` line 85). -/
def managerOrder (order : String) : String :=
  let probe := pyLower (if order == "" then "desc" else order)
  if !(probe == "asc") && !(probe == "desc") then "desc" else pyLower order

/-- The sort/order interpretation of `list_asset_infos_page`
(`app/assets/database/queries/asset_info.py` lines 305-317): lowercase with
`created_at` / `desc` fallbacks, map through the whitelist, descending
exactly when the normalized order is `desc`. -/
def pageSortInterp (sort order : String) : SortColumn × Bool :=
  let sort := pyLower (if sort == "" then "created_at" else sort)
  let order := pyLower (if order == "" then "desc" else order)
  let col := if sort == "name" then SortColumn.name
    else if sort == "created_at" then SortColumn.createdAt
    else if sort == "updated_at" then SortColumn.updatedAt
    else if sort == "last_access_time" then SortColumn.lastAccessTime
    else if sort == "size" then SortColumn.sizeBytes
    else SortColumn.createdAt
  (col, order == "desc")

/-- The effective sort column and direction of a `list_assets` call:
`manager.list_assets` sanitizes, then delegates to
`list_asset_infos_page`.  The boolean is `true` for descending. -/
def listAssetsSortSpec (sort order : String) : SortColumn × Bool :=
  pageSortInterp (safeSortField sort) (managerOrder order)

/-! ### Upload orchestration (`app/assets/manager.py`) -/

/-- The hash gate of `upload_asset_from_temp_path`
(`app/assets/manager.py` lines 183-189): prepend `blake3:` to the computed
digest and fail with `HASH_MISMATCH` when the caller-supplied expected hash
is present and differs after strip/lowercase. -/
def uploadHashGate (digest : String) (expectedAssetHash : Option String) :
    Except String String :=
  let assetHash := "blake3:" ++ digest
  match expectedAssetHash with
  | some e =>
      if !(e == "") && !(assetHash == pyLower (pyStrip e)) then .error "HASH_MISMATCH"
      else .ok assetHash
  | none => .ok assetHash

/-- The result the HTTP layer sees from an upload. -/
structure UploadOutcome where
  db : DB
  fs : FS
  errorCode : Option String
  deriving Repr

/-- `Modelled from the spec:` `process_upload` (referenced from
`app/assets/api/routes.py` but not among the sources) runs
`upload_asset_from_temp_path` and, per spec §7, a hash-check failure deletes
the temp file and returns `HASH_MISMATCH`; the database is only touched by
the continuation, which runs after the gate passes.  `continue_` is the rest
of the upload pipeline. -/
def processUpload (db : DB) (fs : FS) (tempPath : String) (digest : String)
    (expectedAssetHash : Option String)
    (continue_ : DB → FS → String → UploadOutcome) : UploadOutcome :=
  match uploadHashGate digest expectedAssetHash with
  | .error _ => { db := db, fs := fs.remove tempPath, errorCode := some "HASH_MISMATCH" }
  | .ok assetHash => continue_ db fs assetHash

/-! ### Scanner (`app/assets/services/scanner.py`) -/

/-- One row of the state/asset join the reconciler loads for a root. -/
structure ScanRow where
  stateId : Nat
  filePath : String
  mtimeNs : Option Int
  needsVerify : Bool
  assetId : Nat
  assetHash : Option String
  sizeBytes : Int
  deriving DecidableEq, Repr

/-- `Modelled from the spec:` `get_cache_states_for_prefixes` (in the
missing `queries/cache_state.py`) loads every cache state whose path starts
with one of the bases, joined with the owning asset's hash and size. -/
def getCacheStatesForBases (db : DB) (bases : List String) : List ScanRow :=
  (db.cacheStates.filter (fun s => bases.any (fun b => strStartsWith s.filePath b))).filterMap
    (fun s =>
      match db.assets.find? (fun a => a.id == s.assetId) with
      | some a => some { stateId := s.id, filePath := s.filePath, mtimeNs := s.mtimeNs,
                         needsVerify := s.needsVerify, assetId := s.assetId,
                         assetHash := a.hash, sizeBytes := a.sizeBytes }
      | none => none)

/-- `Modelled from the spec:` `delete_orphaned_seed_asset` (in the missing
`queries/cache_state.py`) deletes one asset row, cascading to its cache
states and infos; per its unit test it is a no-op on an unknown id. -/
def deleteOrphanedSeedAsset (db : DB) (assetId : Nat) : DB :=
  if db.assets.any (fun a => a.id == assetId) then deleteAssetCascade db assetId else db

/-- `Modelled from the spec:` `delete_cache_states_by_ids` (in the missing
`queries/cache_state.py`). -/
def deleteCacheStatesByIds (db : DB) (ids : List Nat) : DB :=
  { db with cacheStates := db.cacheStates.filter (fun s => !(ids.contains s.id)) }

/-- `Modelled from the spec:` `bulk_set_needs_verify` (in the missing
`queries/cache_state.py`) sets the flag on every state in the id list. -/
def bulkSetNeedsVerify (db : DB) (ids : List Nat) (value : Bool) : DB :=
  { db with cacheStates := db.cacheStates.map (fun s =>
      if ids.contains s.id then { s with needsVerify := value } else s) }

/-- The per-state facts the reconciler computes from one `stat` call. -/
structure StateCheck where
  sid : Nat
  fp : String
  onDisk : Bool
  fastOk : Bool
  needsVerify : Bool
  deriving DecidableEq, Repr

/-- The accumulating state of the reconciler's per-asset loop:
the session plus the `to_set_verify`, `to_clear_verify` and
`stale_state_ids` accumulators. -/
structure ReconcileAcc where
  db : DB
  toSet : List Nat
  toClear : List Nat
  stale : List Nat
  deriving Repr

/-- The body of the per-asset loop of `reconcile_cache_states_for_root`
(`app/assets/services/scanner.py` lines 336-372): collect the verify
toggles for existing states, delete a seed asset whose states are all
missing, and for hashed assets drop stale locators or toggle the `missing`
tag. -/
def reconcileAssetStep (fs : FS) (now : Nat) (updateMissingTags : Bool)
    (acc : ReconcileAcc) (group : Nat × List ScanRow) : ReconcileAcc :=
  let aid := group.1
  let grows := group.2
  let sizeDb := (grows.head?.map (fun r => r.sizeBytes)).getD 0
  let aHash := (grows.head?.map (fun r => r.assetHash)).getD none
  let states := grows.map (fun r =>
    let st := fs.stat? r.filePath
    let fOk := match st with
      | some e => fastAssetFileCheck r.mtimeNs sizeDb e
      | none => false
    ({ sid := r.stateId, fp := r.filePath, onDisk := st.isSome, fastOk := fOk,
       needsVerify := r.needsVerify } : StateCheck))
  let anyFastOk := states.any (fun s => s.fastOk)
  let allMissing := states.all (fun s => !s.onDisk)
  let toClear := acc.toClear ++
    (states.filter (fun s => s.onDisk && s.fastOk && s.needsVerify)).map (fun s => s.sid)
  let toSet := acc.toSet ++
    (states.filter (fun s => s.onDisk && !s.fastOk && !s.needsVerify)).map (fun s => s.sid)
  match aHash with
  | none =>
      if !states.isEmpty && allMissing then
        { db := deleteOrphanedSeedAsset acc.db aid, toSet := toSet, toClear := toClear,
          stale := acc.stale }
      else
        { db := acc.db, toSet := toSet, toClear := toClear, stale := acc.stale }
  | some _ =>
      if anyFastOk then
        let stale := acc.stale ++ (states.filter (fun s => !s.onDisk)).map (fun s => s.sid)
        let db := if updateMissingTags then removeMissingTagForAssetId acc.db aid else acc.db
        { db := db, toSet := toSet, toClear := toClear, stale := stale }
      else
        let db := if updateMissingTags then addMissingTagForAssetId acc.db now aid "automatic"
                  else acc.db
        { db := db, toSet := toSet, toClear := toClear, stale := acc.stale }

/-- `reconcile_cache_states_for_root` from
`app/assets/services/scanner.py`: load the joined states for the root's
bases, group them by asset in first-appearance order, run the per-asset
step, then delete the stale locators and apply the two bulk `needs_verify`
updates. -/
def reconcileCacheStatesForRoot (db : DB) (fs : FS) (bases : List String)
    (now : Nat) (updateMissingTags : Bool) : DB :=
  let rows := getCacheStatesForBases db bases
  let aids := firstDedup (rows.map (fun r => r.assetId))
  let groups := aids.map (fun aid => (aid, rows.filter (fun r => r.assetId == aid)))
  let acc := groups.foldl (reconcileAssetStep fs now updateMissingTags)
    { db := db, toSet := [], toClear := [], stale := [] }
  let db1 := deleteCacheStatesByIds acc.db acc.stale
  let db2 := bulkSetNeedsVerify db1 acc.toSet true
  bulkSetNeedsVerify db2 acc.toClear false

/-! ### Claim-side specification definitions

These definitions follow the wording of the specification (not the code);
the refinement theorems below compare the translated code against them. -/

/-- The sort column the spec's whitelist assigns to a lowercased sort value:
`name`, `created_at`, `updated_at`, `last_access_time`, `size`
(= `Asset.size_bytes`); anything else falls back to `created_at`. -/
def claimSortColumn (v : String) : SortColumn :=
  if v == "name" then SortColumn.name
  else if v == "created_at" then SortColumn.createdAt
  else if v == "updated_at" then SortColumn.updatedAt
  else if v == "last_access_time" then SortColumn.lastAccessTime
  else if v == "size" then SortColumn.sizeBytes
  else SortColumn.createdAt

/-- Exactly one of the four value columns of a projection row is set. -/
def exactlyOneValue (r : ProjRow) : Bool :=
  (r.valStr.isSome.toNat + r.valNum.isSome.toNat +
   r.valBool.isSome.toNat + r.valJson.isSome.toNat) == 1

/-- All four value columns of a projection row are null. -/
def allNullValues (r : ProjRow) : Bool :=
  r.valStr.isNone && r.valNum.isNone && r.valBool.isNone && r.valJson.isNone

/-- Exactly one of the four value columns of a stored metadata row is set. -/
def metaExactlyOneValue (m : MetaRow) : Bool :=
  (m.valStr.isSome.toNat + m.valNum.isSome.toNat +
   m.valBool.isSome.toNat + m.valJson.isSome.toNat) == 1

/-- All four value columns of a stored metadata row are null. -/
def metaAllNullValues (m : MetaRow) : Bool :=
  m.valStr.isNone && m.valNum.isNone && m.valBool.isNone && m.valJson.isNone

/-- The spec's description of the projection row for a scalar list element
`x` at index `i` under key `k`: the row carries the element's type in the
matching typed column, the other columns null, and `ordinal = i`. -/
def claimScalarRow (k : String) (i : Nat) (x : Json) (r : ProjRow) : Prop :=
  r.key = k ∧ r.ordinal = i ∧
  match x with
  | .null => r.valStr = none ∧ r.valNum = none ∧ r.valBool = none ∧ r.valJson = none
  | .bool b => r.valBool = some b ∧ r.valStr = none ∧ r.valNum = none ∧ r.valJson = none
  | .num q => r.valNum = some q ∧ r.valStr = none ∧ r.valBool = none ∧ r.valJson = none
  | .str s => r.valStr = some s ∧ r.valNum = none ∧ r.valBool = none ∧ r.valJson = none
  | x => r.valJson = some x ∧ r.valStr = none ∧ r.valNum = none ∧ r.valBool = none

/-- A handful of concrete states used by the counterexample theorems. -/
def emptyDB : DB :=
  { assets := [], cacheStates := [], infos := [], tags := [], infoTags := [],
    metas := [], nextId := 0 }

/-- One asset known by hash `blake3:aa` with stored size 1000. -/
def dbSizeThousand : DB :=
  { emptyDB with
    assets := [{ id := 0, hash := some "blake3:aa", sizeBytes := 1000, mimeType := none }],
    nextId := 1 }

/-- A seed asset (hash null) whose single cache state points at a file that
no longer exists, with one info handle. -/
def dbSeedDropped : DB :=
  { assets := [{ id := 0, hash := none, sizeBytes := 5, mimeType := none }],
    cacheStates := [{ id := 1, assetId := 0, filePath := "/input/x.bin",
                      mtimeNs := some 10, needsVerify := false }],
    infos := [{ id := 2, assetId := 0, ownerId := "", name := "x.bin",
                previewId := none, userMetadata := none, createdAt := 0,
                updatedAt := 0, lastAccessTime := 0 }],
    tags := [], infoTags := [], metas := [], nextId := 3 }


/-- One asset with a single on-disk file and a single info handle: the
info is the last reference. -/
def dbLastRef : DB :=
  { assets := [{ id := 0, hash := some "blake3:aa", sizeBytes := 1, mimeType := none }],
    cacheStates := [{ id := 1, assetId := 0, filePath := "/data/a.bin", mtimeNs := some 5, needsVerify := false }],
    infos := [{ id := 2, assetId := 0, ownerId := "", name := "a", previewId := none, userMetadata := none, createdAt := 0, updatedAt := 0, lastAccessTime := 0 }],
    tags := [], infoTags := [], metas := [], nextId := 3 }

/-- The filesystem holding `dbLastRef`'s one file. -/
def fsLastRef : FS := ⟨[{ path := "/data/a.bin", size := 1, mtimeNs := 5 }]⟩


/-- Two assets and one info whose `preview_id` points at asset 0; asset 1
is a valid alternative preview target. -/
def dbPrev : DB :=
  { assets := [{ id := 0, hash := some "blake3:aa", sizeBytes := 4, mimeType := none },
               { id := 1, hash := some "blake3:bb", sizeBytes := 4, mimeType := none }],
    cacheStates := [{ id := 2, assetId := 0, filePath := "/input/a.bin", mtimeNs := some 5, needsVerify := false }],
    infos := [{ id := 3, assetId := 0, ownerId := "", name := "a", previewId := some 0, userMetadata := none, createdAt := 0, updatedAt := 0, lastAccessTime := 0 }],
    tags := [], infoTags := [], metas := [], nextId := 4 }


/-! ### Support lemmas -/

theorem normalizeTags_cons (s : String) (l : List String) :
    normalizeTags (s :: l) =
      if pyStrip s == "" then normalizeTags l
      else pyLower (pyStrip s) :: normalizeTags l := by
  simp only [normalizeTags, List.filter_cons]
  by_cases h : pyStrip s == "" <;> simp [h]

/-! ### C6 — tag normalization (`normalize_tags`) -/

/-- C6 counterexample: the claim says the result of `normalize_tags` never
contains the same tag name twice, but
`normalize_tags(["a", "A"]) = ["a", "a"]`. -/
theorem normalize_tags_no_dedup_counterexample :
    ¬ (normalizeTags ["a", "A"]).Nodup := by decide

/-- C6 (amended): `normalize_tags` strips surrounding whitespace and
lowercases letters, removes entries that are empty after stripping, and
keeps duplicates: every tag name occurs in the output once per non-empty
input entry that normalizes to it, and every output element is the
stripped-lowercased form of some input entry that is non-empty after
stripping. -/
theorem normalize_tags_amended (tags : List String) :
    (∀ t, (normalizeTags tags).count t
        = (tags.filter (fun s => !(pyStrip s == "") && pyLower (pyStrip s) == t)).length)
    ∧ (∀ u ∈ normalizeTags tags,
        ∃ s ∈ tags, ¬ pyStrip s = "" ∧ u = pyLower (pyStrip s)) := by
  constructor
  · intro t
    induction tags with
    | nil => rfl
    | cons s l ih =>
        rw [normalizeTags_cons, List.filter_cons]
        by_cases h : pyStrip s == ""
        · rw [if_pos h]
          have hc : (!(pyStrip s == "") && pyLower (pyStrip s) == t) = false := by
            rw [h]
            rfl
          rw [hc]
          simpa using ih
        · rw [if_neg h, List.count_cons]
          have hc : (!(pyStrip s == "") && pyLower (pyStrip s) == t)
              = (pyLower (pyStrip s) == t) := by
            simp [Bool.not_eq_true] at h
            simp [h]
          rw [hc]
          by_cases h2 : pyLower (pyStrip s) == t
          · rw [if_pos h2, if_pos h2, List.length_cons, ih]
          · rw [if_neg h2, if_neg h2, ih, Nat.add_zero]
  · intro u hu
    simp only [normalizeTags, List.mem_map, List.mem_filter] at hu
    obtain ⟨s, ⟨hs, hne⟩, rfl⟩ := hu
    exact ⟨s, hs, by simpa using hne, rfl⟩

/-! ### C7 — listing sort and order -/

/-- C7 counterexample: the claim says any sort value other than the five
whitelisted strings falls back to `created_at`, and any order value other
than `asc`/`desc` falls back to descending; but a `list_assets` call with
`sort="NAME"`, `order="ASC"` sorts by name ascending. -/
theorem listing_sort_counterexample :
    listAssetsSortSpec "NAME" "ASC" = (SortColumn.name, false)
    ∧ ¬ listAssetsSortSpec "NAME" "ASC" = (SortColumn.createdAt, true) := by
  constructor <;> decide

/-- C7 (amended): sort and order values are matched case-insensitively.
The effective sort column is the whitelist image (`name`, `created_at`,
`updated_at`, `last_access_time`, `size` ↦ `Asset.size_bytes`) of the
lowercased sort value, `created_at` for anything else; the direction is
ascending exactly when the lowercased order value is `asc`, and descending
for every other value. -/
theorem listing_sort_amended (sort order : String) :
    listAssetsSortSpec sort order
      = (claimSortColumn (pyLower sort), !(pyLower order == "asc")) := by
  have hcol : ∀ s o : String, (pageSortInterp s o).1
      = claimSortColumn (pyLower (if s == "" then "created_at" else s)) := by
    intro s o
    rfl
  have hfield : safeSortField sort
      = (if pyLower sort == "name" then "name"
        else if pyLower sort == "created_at" then "created_at"
        else if pyLower sort == "updated_at" then "updated_at"
        else if pyLower sort == "size" then "size"
        else if pyLower sort == "last_access_time" then "last_access_time"
        else "created_at") := by
    unfold safeSortField
    by_cases h0 : sort == ""
    · have he : sort = "" := by simpa using h0
      subst he
      decide
    · rw [if_neg h0]
      by_cases h1 : pyLower sort == "name"
      · rw [if_pos (by simp [h1]), if_pos h1]
        exact (by simpa using h1)
      · by_cases h2 : pyLower sort == "created_at"
        · rw [if_pos (by simp [h1, h2]), if_neg h1, if_pos h2]
          exact (by simpa using h2)
        · by_cases h3 : pyLower sort == "updated_at"
          · rw [if_pos (by simp [h1, h2, h3]), if_neg h1, if_neg h2, if_pos h3]
            exact (by simpa using h3)
          · by_cases h4 : pyLower sort == "size"
            · rw [if_pos (by simp [h1, h2, h3, h4]), if_neg h1, if_neg h2,
                if_neg h3, if_pos h4]
              exact (by simpa using h4)
            · by_cases h5 : pyLower sort == "last_access_time"
              · rw [if_pos (by simp [h1, h2, h3, h4, h5]), if_neg h1, if_neg h2,
                  if_neg h3, if_neg h4, if_pos h5]
                exact (by simpa using h5)
              · rw [if_neg (by simp [h1, h2, h3, h4, h5]), if_neg h1, if_neg h2,
                  if_neg h3, if_neg h4, if_neg h5]
  have hcol2 : (listAssetsSortSpec sort order).1 = claimSortColumn (pyLower sort) := by
    show (pageSortInterp (safeSortField sort) (managerOrder order)).1
        = claimSortColumn (pyLower sort)
    rw [hcol, hfield]
    by_cases h1 : pyLower sort == "name"
    · rw [if_pos h1]
      have h1e : pyLower sort = "name" := by simpa using h1
      rw [h1e]
      decide
    · rw [if_neg h1]
      by_cases h2 : pyLower sort == "created_at"
      · rw [if_pos h2]
        have he : pyLower sort = "created_at" := by simpa using h2
        rw [he]
        decide
      · rw [if_neg h2]
        by_cases h3 : pyLower sort == "updated_at"
        · rw [if_pos h3]
          have he : pyLower sort = "updated_at" := by simpa using h3
          rw [he]
          decide
        · rw [if_neg h3]
          by_cases h4 : pyLower sort == "size"
          · rw [if_pos h4]
            have he : pyLower sort = "size" := by simpa using h4
            rw [he]
            decide
          · rw [if_neg h4]
            by_cases h5 : pyLower sort == "last_access_time"
            · rw [if_pos h5]
              have he : pyLower sort = "last_access_time" := by simpa using h5
              rw [he]
              decide
            · rw [if_neg h5]
              have hcl : claimSortColumn (pyLower sort) = SortColumn.createdAt := by
                unfold claimSortColumn
                rw [if_neg h1, if_neg h2, if_neg h3, if_neg h5, if_neg h4]
              rw [hcl]
              decide
  have hord : ∀ s o : String, (pageSortInterp s o).2
      = (pyLower (if o == "" then "desc" else o) == "desc") := by
    intro s o
    rfl
  have hord2 : (listAssetsSortSpec sort order).2 = !(pyLower order == "asc") := by
    show (pageSortInterp (safeSortField sort) (managerOrder order)).2
        = !(pyLower order == "asc")
    rw [hord]
    by_cases h0 : order == ""
    · have he : order = "" := by simpa using h0
      subst he
      decide
    · have hne : ¬ order = "" := by simpa using h0
      by_cases h1 : pyLower order == "asc"
      · have he : pyLower order = "asc" := by simpa using h1
        have hmo : managerOrder order = "asc" := by
          simp [managerOrder, hne, he]
        rw [hmo, he]
        decide
      · by_cases h2 : pyLower order == "desc"
        · have he : pyLower order = "desc" := by simpa using h2
          have hne1 : ¬ pyLower order = "asc" := by simpa using h1
          have hmo : managerOrder order = "desc" := by
            simp [managerOrder, hne, he]
          rw [hmo, he]
          decide
        · have hne1 : ¬ pyLower order = "asc" := by simpa using h1
          have hne2 : ¬ pyLower order = "desc" := by simpa using h2
          have hmo : managerOrder order = "desc" := by
            simp [managerOrder, hne, hne1, hne2]
          have h1f : (pyLower order == "asc") = false := by
            simpa using h1
          rw [hmo, h1f]
          decide
  calc listAssetsSortSpec sort order
      = ((listAssetsSortSpec sort order).1, (listAssetsSortSpec sort order).2) := rfl
    _ = (claimSortColumn (pyLower sort), !(pyLower order == "asc")) := by
        rw [hcol2, hord2]


/-! ### C4 — hash validation -/

theorem any_not_eq_not_all (p : Char → Bool) (l : List Char) :
    l.any (fun c => !(p c)) = !(l.all p) := by
  induction l with
  | nil => rfl
  | cons c cs ih => simp [List.any_cons, List.all_cons, ih, Bool.not_and]

/-- A character list containing `':'` splits at the first `':'` into the
`takeWhile` part, the colon, and the remainder that `split(":", 1)`
returns. -/
theorem splitAtColon (cs : List Char) (h : cs.contains ':' = true) :
    cs = cs.takeWhile (fun c => !(c == ':')) ++ ':'
      :: (cs.dropWhile (fun c => !(c == ':'))).drop 1 := by
  have hmem : ':' ∈ cs := by simpa using h
  have hne : cs.dropWhile (fun c => !(c == ':')) ≠ [] := by
    rw [Ne, List.dropWhile_eq_nil_iff]
    intro hall
    have := hall ':' hmem
    simp at this
  obtain ⟨c, rest, hdrop⟩ := List.exists_cons_of_ne_nil hne
  have hc : (fun c => !(c == ':')) c = false := by
    have := List.head_dropWhile_not (fun c => !(c == ':')) cs (by simp [hdrop])
    simpa [hdrop] using this
  have hc2 : c = ':' := by simpa using hc
  conv_lhs => rw [← List.takeWhile_append_dropWhile (p := fun c => !(c == ':')) (l := cs)]
  rw [hdrop, hc2]
  simp

theorem validateHashChars_pre (ds : List Char) :
    validateHashChars ("blake3:".data ++ ds)
      = (if ds.isEmpty || ds.any (fun c => !(isHexLowerChar c)) then none
        else some ("blake3:".data ++ ds)) := by
  simp only [validateHashChars]
  rw [show ("blake3:".data ++ ds).isEmpty = false from rfl]
  rw [show ("blake3:".data ++ ds).contains ':' = true from rfl]
  rw [show ("blake3:".data ++ ds).takeWhile (fun c => !(c == ':')) = "blake3".data from rfl]
  rw [show (("blake3:".data ++ ds).dropWhile (fun c => !(c == ':'))).drop 1 = ds from rfl]
  simp

theorem validateHashChars_algo (cs : List Char)
    (hpre : ¬ cs.take 7 = "blake3:".data) (hC : cs.contains ':' = true) :
    (cs.takeWhile (fun c => !(c == ':')) == "blake3".data) = false := by
  by_contra hne
  have halgoeq : cs.takeWhile (fun c => !(c == ':')) = "blake3".data := by
    have := Bool.not_eq_false _ |>.mp hne
    simpa using this
  have hsp := splitAtColon cs hC
  rw [halgoeq] at hsp
  exact hpre (by rw [hsp]; rfl)

theorem validateHashChars_not_pre (cs : List Char)
    (hpre : ¬ cs.take 7 = "blake3:".data) : validateHashChars cs = none := by
  simp only [validateHashChars]
  by_cases hE : cs.isEmpty
  · rw [if_pos hE]
  · rw [if_neg hE]
    by_cases hC : cs.contains ':'
    · rw [if_neg (by rw [hC]; simp)]
      rw [validateHashChars_algo cs hpre hC]
      simp
    · rw [if_pos (by simpa using hC)]

theorem headHashCharsAccepts_eq (cs : List Char) :
    headHashCharsAccepts cs = (validateHashChars cs).isSome := by
  simp only [headHashCharsAccepts, validateHashChars]
  by_cases hE : cs.isEmpty
  · rw [if_pos (by rw [hE]; rfl), if_pos hE]
    rfl
  · have hEf : cs.isEmpty = false := by simpa using hE
    by_cases hC : cs.contains ':'
    · have hCn : (!(cs.contains ':')) = false := by rw [hC]; rfl
      rw [if_neg (by rw [hEf, hCn]; simp), if_neg hE, if_neg (by rw [hCn]; simp)]
      cases hc : !(cs.takeWhile (fun c => !(c == ':')) == "blake3".data)
          || ((cs.dropWhile (fun c => !(c == ':'))).drop 1).isEmpty
          || ((cs.dropWhile (fun c => !(c == ':'))).drop 1).any
            (fun c => !(isHexLowerChar c)) with
      | false => rfl
      | true => rfl
    · have hCf : cs.contains ':' = false := by simpa using hC
      rw [if_pos (by rw [hEf, hCf]; rfl), if_neg hE, if_pos (by rw [hCf]; rfl)]
      rfl

/-- C4 counterexample: the claim says hash validation accepts exactly the
`blake3:` strings whose digest has 64 hex digits; but `"blake3:ab"`, whose
digest has two, is accepted by `validate_hash_format` and by the HEAD
handler's inline check. -/
theorem hash_validation_counterexample :
    validateHashFormat "blake3:ab" = some "blake3:ab"
    ∧ headHashAccepts "blake3:ab" = true
    ∧ ¬ ((pyLower (pyStrip "blake3:ab")).data.drop 7).length = 64 := by
  refine ⟨by decide, by decide, by decide⟩

/-- C4 (amended): hash validation accepts exactly the strings that, after
stripping whitespace and lowercasing, are `blake3:` followed by a nonempty
string of lowercase hex digits — the 64-digit length of a canonical digest
is not enforced.  Every accepted input is normalized to its
stripped-lowercased form; every other input (another algorithm such as
`sha256`, a non-hex or empty digest, a string without a colon) is rejected
with `INVALID_HASH`; and the `HEAD /api/assets/hash/{hash}` inline check
accepts exactly the strings `validate_hash_format` accepts. -/
theorem hash_validation_amended (s : String) :
    ((validateHashFormat s).isSome
      = (((pyLower (pyStrip s)).data.take 7 == "blake3:".data)
          && !((pyLower (pyStrip s)).data.drop 7).isEmpty
          && ((pyLower (pyStrip s)).data.drop 7).all isHexLowerChar))
    ∧ (∀ out, validateHashFormat s = some out → out = pyLower (pyStrip s))
    ∧ headHashAccepts s = (validateHashFormat s).isSome := by
  set cs := (pyLower (pyStrip s)).data with hcsdef
  have hmap : validateHashFormat s = (validateHashChars cs).map String.mk := rfl
  have hhead : headHashAccepts s = headHashCharsAccepts cs := rfl
  by_cases hpre : cs.take 7 = "blake3:".data
  · have hsplit : cs = "blake3:".data ++ cs.drop 7 := by
      rw [← hpre]
      exact (List.take_append_drop 7 cs).symm
    have hv : validateHashChars cs
        = (if (cs.drop 7).isEmpty || (cs.drop 7).any (fun c => !(isHexLowerChar c)) then
            none
          else some ("blake3:".data ++ cs.drop 7)) := by
      conv_lhs => rw [hsplit]
      exact validateHashChars_pre (cs.drop 7)
    refine ⟨?_, ?_, ?_⟩
    · rw [hmap, hv]
      have htake : (cs.take 7 == "blake3:".data) = true := by simpa using hpre
      rw [htake, any_not_eq_not_all]
      by_cases hemp : (cs.drop 7).isEmpty
      · simp [hemp]
      · have hempf : (cs.drop 7).isEmpty = false := by simpa using hemp
        by_cases hall : (cs.drop 7).all isHexLowerChar
        · simp [hempf, hall]
        · have hallf : (cs.drop 7).all isHexLowerChar = false := by simpa using hall
          simp [hempf, hallf]
    · intro out hout
      rw [hmap, hv] at hout
      by_cases hcond : (cs.drop 7).isEmpty || (cs.drop 7).any (fun c => !(isHexLowerChar c))
      · rw [if_pos hcond] at hout
        exact absurd hout (by simp)
      · rw [if_neg hcond] at hout
        simp only [Option.map] at hout
        injection hout with h
        rw [← h, ← hsplit, hcsdef]
    · rw [hmap, hhead, headHashCharsAccepts_eq]
      cases validateHashChars cs
      · rfl
      · rfl
  · have hnone := validateHashChars_not_pre cs hpre
    have htakef : (cs.take 7 == "blake3:".data) = false := by simpa using hpre
    refine ⟨?_, ?_, ?_⟩
    · rw [hmap, hnone, htakef]
      rfl
    · intro out hout
      rw [hmap, hnone] at hout
      exact absurd hout (by simp)
    · rw [hmap, hhead, headHashCharsAccepts_eq, hnone]
      rfl

/-! ### C3 — `upsert_asset` -/

/-- Reading an asset by hash still finds the (updated) row after an
update-by-primary-key, because the replacement keeps position, id and
hash. -/
theorem find?_replaceAssetById (l : List AssetRow) (a a2 : AssetRow) (h : String)
    (hfind : l.find? (fun r => r.hash == some h) = some a)
    (hid : a2.id = a.id) (hhash : a2.hash = a.hash) :
    (replaceAssetById l a2).find? (fun r => r.hash == some h) = some a2 := by
  have hpa : (a.hash == some h) = true := by
    have := List.find?_some hfind
    simpa using this
  induction l with
  | nil => exact absurd hfind (by simp)
  | cons r rest ih =>
      rw [List.find?_cons] at hfind
      by_cases hp : (r.hash == some h) = true
      · rw [hp] at hfind
        have hra : r = a := by simpa using hfind
        subst hra
        have hrid : (r.id == a2.id) = true := by simp [hid]
        simp only [replaceAssetById, List.map_cons, hrid, if_pos]
        exact List.find?_cons_of_pos _ (by rw [hhash]; exact hpa)
      · have hpf : (r.hash == some h) = false := by simpa using hp
        rw [hpf] at hfind
        simp only at hfind
        by_cases hrid : (r.id == a2.id) = true
        · simp only [replaceAssetById, List.map_cons, hrid, if_pos]
          exact List.find?_cons_of_pos _ (by rw [hhash]; exact hpa)
        · simp only [replaceAssetById, List.map_cons, hrid]
          rw [if_neg (by simpa using hrid)]
          rw [List.find?_cons, hpf]
          simp only []
          exact ih hfind

theorem upsert_found_char (db : DB) (h : String) (s : Int) (m : Option String)
    (asset : AssetRow)
    (hfind : db.assets.find? (fun r => r.hash == some h) = some asset) :
    upsertAsset db h s m =
      (let a1 := if !(asset.sizeBytes == s) && decide (s > 0) then
          { asset with sizeBytes := s } else asset
       let a2 := if strTruthy m && !(a1.mimeType == m) then
          { a1 with mimeType := m } else a1
       Except.ok ((if !(a2 == asset) then
           { db with assets := replaceAssetById db.assets a2 } else db),
         a2, false, !(a2 == asset))) := by
  have hany : (db.assets.any fun r => r.hash == some h) = true := by
    refine List.any_eq_true.mpr ⟨asset, List.mem_of_find?_eq_some hfind, ?_⟩
    have := List.find?_some hfind
    simpa using this
  simp only [upsertAsset, hany, Bool.not_true, Bool.false_eq_true, reduceIte]
  rw [hfind]

/-- C3 counterexample: the claim says `size_bytes` of an existing row is
updated only if the stored value was 0; but for a row whose stored size is
1000 (not 0), upserting the same hash with size 2048 overwrites the size
and reports `updated = true`. -/
theorem upsert_asset_size_counterexample :
    upsertAsset dbSizeThousand "blake3:aa" 2048 none
      = .ok ({ dbSizeThousand with
               assets := [{ id := 0, hash := some "blake3:aa", sizeBytes := 2048,
                            mimeType := none }] },
             { id := 0, hash := some "blake3:aa", sizeBytes := 2048, mimeType := none },
             false, true)
    ∧ ¬ (1000 : Int) = 0 := by
  refine ⟨rfl, by decide⟩

/-- C3 (amended): on an existing row `upsert_asset` creates no new row and
updates `size_bytes` whenever the supplied size is positive and differs
from the stored value — not only when the stored value was 0; `mime_type`
is updated when supplied non-empty and different; `id` and `hash` stay
unchanged, rows of other assets and all other tables are untouched, and
the row remains the one read back for the hash.  For an unknown hash a new
row holding the supplied values is appended and reported as created. -/
theorem upsert_asset_amended (db : DB) (h : String) (s : Int) (m : Option String) :
    (∀ asset, getAssetByHash db h = some asset →
      ∃ db2 a2 upd, upsertAsset db h s m = .ok (db2, a2, false, upd)
        ∧ a2.id = asset.id ∧ a2.hash = asset.hash
        ∧ a2.sizeBytes = (if ¬ asset.sizeBytes = s ∧ 0 < s then s else asset.sizeBytes)
        ∧ a2.mimeType = (if strTruthy m = true ∧ ¬ asset.mimeType = m then m
            else asset.mimeType)
        ∧ db2.assets.length = db.assets.length
        ∧ (∀ r ∈ db.assets, ¬ r.id = asset.id → r ∈ db2.assets)
        ∧ getAssetByHash db2 h = some a2
        ∧ db2.cacheStates = db.cacheStates ∧ db2.infos = db.infos
        ∧ db2.tags = db.tags ∧ db2.infoTags = db.infoTags ∧ db2.metas = db.metas
        ∧ db2.nextId = db.nextId)
    ∧ (getAssetByHash db h = none →
      ∃ db2 a2, upsertAsset db h s m = .ok (db2, a2, true, false)
        ∧ a2.hash = some h ∧ a2.sizeBytes = s
        ∧ a2.mimeType = (if strTruthy m then m else none)
        ∧ db2.assets = db.assets ++ [a2]
        ∧ db2.cacheStates = db.cacheStates ∧ db2.infos = db.infos
        ∧ db2.tags = db.tags ∧ db2.infoTags = db.infoTags ∧ db2.metas = db.metas) := by
  constructor
  · intro asset hfound
    have hchar := upsert_found_char db h s m asset hfound
    simp only [] at hchar
    set a1 : AssetRow := if !(asset.sizeBytes == s) && decide (s > 0) then
        { asset with sizeBytes := s } else asset with ha1def
    set a2 : AssetRow := if strTruthy m && !(a1.mimeType == m) then
        { a1 with mimeType := m } else a1 with ha2def
    have ha1fields : a1.id = asset.id ∧ a1.hash = asset.hash
        ∧ a1.mimeType = asset.mimeType := by
      rw [ha1def]
      by_cases hc : (!(asset.sizeBytes == s) && decide (s > 0)) = true
      · rw [if_pos hc]
        exact ⟨rfl, rfl, rfl⟩
      · rw [if_neg hc]
        exact ⟨rfl, rfl, rfl⟩
    have ha1size : a1.sizeBytes = (if ¬ asset.sizeBytes = s ∧ 0 < s then s
        else asset.sizeBytes) := by
      rw [ha1def]
      by_cases hc : ¬ asset.sizeBytes = s ∧ 0 < s
      · rw [if_pos (by simp [hc.2]; simpa using hc.1), if_pos hc]
      · rw [if_neg ?hneg, if_neg hc]
        case hneg =>
          intro hb
          apply hc
          have h1 := (Bool.and_eq_true _ _ |>.mp hb).1
          have h2 := (Bool.and_eq_true _ _ |>.mp hb).2
          exact ⟨by simpa using h1, of_decide_eq_true h2⟩
    have ha2fields : a2.id = a1.id ∧ a2.hash = a1.hash ∧ a2.sizeBytes = a1.sizeBytes := by
      rw [ha2def]
      by_cases hc : (strTruthy m && !(a1.mimeType == m)) = true
      · rw [if_pos hc]
        exact ⟨rfl, rfl, rfl⟩
      · rw [if_neg hc]
        exact ⟨rfl, rfl, rfl⟩
    have ha2mime : a2.mimeType = (if strTruthy m = true ∧ ¬ asset.mimeType = m then m
        else asset.mimeType) := by
      rw [ha2def]
      by_cases hc : strTruthy m = true ∧ ¬ asset.mimeType = m
      · rw [if_pos (by rw [ha1fields.2.2]; simp [hc.1]; simpa using hc.2), if_pos hc]
      · rw [if_neg ?hneg2, if_neg hc, ha1fields.2.2]
        case hneg2 =>
          intro hb
          apply hc
          have h1 := (Bool.and_eq_true _ _ |>.mp hb).1
          have h2 := (Bool.and_eq_true _ _ |>.mp hb).2
          rw [ha1fields.2.2] at h2
          exact ⟨h1, by simpa using h2⟩
    have hid : a2.id = asset.id := by rw [ha2fields.1, ha1fields.1]
    have hhash : a2.hash = asset.hash := by rw [ha2fields.2.1, ha1fields.2.1]
    have hsize : a2.sizeBytes = (if ¬ asset.sizeBytes = s ∧ 0 < s then s
        else asset.sizeBytes) := by rw [ha2fields.2.2, ha1size]
    by_cases hch : (!(a2 == asset)) = true
    · rw [if_pos hch] at hchar
      refine ⟨_, a2, !(a2 == asset), hchar, hid, hhash, hsize, ha2mime, ?_, ?_, ?_,
        rfl, rfl, rfl, rfl, rfl, rfl⟩
      · exact List.length_map _ _
      · intro r hr hrid
        show r ∈ replaceAssetById db.assets a2
        have heq : (if (r.id == a2.id) = true then a2 else r) = r := by
          rw [if_neg (by rw [hid]; simpa using fun hx => hrid (by simpa using hx))]
        rw [← heq]
        exact List.mem_map_of_mem _ hr
      · exact find?_replaceAssetById db.assets asset a2 h hfound hid hhash
    · rw [if_neg hch] at hchar
      have haeq : a2 = asset := by
        have hb : (a2 == asset) = true := by
          cases hx : (a2 == asset)
          · rw [hx] at hch
            exact absurd rfl hch
          · rfl
        simpa using hb
      refine ⟨db, a2, !(a2 == asset), hchar, hid, hhash, hsize, ha2mime, rfl,
        fun r hr _ => hr, ?_, rfl, rfl, rfl, rfl, rfl, rfl⟩
      show db.assets.find? (fun r => r.hash == some h) = some a2
      rw [haeq]
      exact hfound
  · intro hnone
    have hfind : db.assets.find? (fun r => r.hash == some h) = none := hnone
    have hany : (db.assets.any fun r => r.hash == some h) = false := by
      rw [List.any_eq_false]
      intro r hr
      have := List.find?_eq_none.mp hfind r hr
      simpa using this
    refine ⟨{ db with assets := db.assets ++ [{ id := db.nextId, hash := some h, sizeBytes := s, mimeType := if strTruthy m then m else none }], nextId := db.nextId + 1 }, { id := db.nextId, hash := some h, sizeBytes := s, mimeType := if strTruthy m then m else none }, ?_, rfl, rfl, rfl, rfl, rfl, rfl, rfl, rfl, rfl⟩
    simp only [upsertAsset, hany, Bool.not_false, Bool.false_eq_true, reduceIte]
    rw [List.find?_append, hfind]
    have hpnew : ((({ id := db.nextId, hash := some h, sizeBytes := s, mimeType := if strTruthy m then m else none } : AssetRow)).hash == some h) = true := by simp
    rw [List.find?_cons, hpnew]
    rfl

/-! ### C8 — metadata projection -/

theorem mem_foldl_append {α β : Type} (f : α → List β) (l : List α)
    (init : List β) (x : β) :
    (x ∈ l.foldl (fun acc a => acc ++ f a) init) ↔ (x ∈ init ∨ ∃ a ∈ l, x ∈ f a) := by
  induction l generalizing init with
  | nil => simp
  | cons a rest ih =>
      rw [List.foldl_cons, ih]
      constructor
      · rintro (hx | hx)
        · rcases List.mem_append.mp hx with hx | hx
          · exact Or.inl hx
          · exact Or.inr ⟨a, by simp, hx⟩
        · obtain ⟨b, hb, hxb⟩ := hx
          exact Or.inr ⟨b, by simp [hb], hxb⟩
      · rintro (hx | ⟨b, hb, hxb⟩)
        · exact Or.inl (List.mem_append.mpr (Or.inl hx))
        · rcases List.mem_cons.mp hb with rfl | hb
          · exact Or.inl (List.mem_append.mpr (Or.inr hxb))
          · exact Or.inr ⟨b, hb, hxb⟩

theorem projectKv_rows_valid (k : String) (v : Json) (r : ProjRow)
    (hr : r ∈ projectKv k v) :
    exactlyOneValue r = true ∨ allNullValues r = true := by
  cases v with
  | null =>
      simp only [projectKv, List.mem_singleton] at hr
      right
      rw [hr]
      rfl
  | bool b =>
      simp only [projectKv, List.mem_singleton] at hr
      left
      rw [hr]
      rfl
  | num q =>
      simp only [projectKv, List.mem_singleton] at hr
      left
      rw [hr]
      rfl
  | str s =>
      simp only [projectKv, List.mem_singleton] at hr
      left
      rw [hr]
      rfl
  | obj kvs =>
      simp only [projectKv, List.mem_singleton] at hr
      left
      rw [hr]
      rfl
  | arr xs =>
      simp only [projectKv] at hr
      by_cases hall : xs.all isScalar
      · rw [if_pos hall] at hr
        obtain ⟨p, _, rfl⟩ := List.mem_map.mp hr
        cases hx : p.2 with
        | null => right; simp [projScalarRow, hx]; rfl
        | bool b => left; simp [projScalarRow, hx]; rfl
        | num q => left; simp [projScalarRow, hx]; rfl
        | str s => left; simp [projScalarRow, hx]; rfl
        | arr ys => left; simp [projScalarRow, hx]; rfl
        | obj kvs => left; simp [projScalarRow, hx]; rfl
      · rw [if_neg hall] at hr
        obtain ⟨p, _, rfl⟩ := List.mem_map.mp hr
        left
        rfl

theorem get_of_list_eq {α : Type} {l l2 : List α} (h : l = l2) (i : Nat)
    (hi : i < l.length) (hi2 : i < l2.length) : l.get ⟨i, hi⟩ = l2.get ⟨i, hi2⟩ := by
  subst h
  rfl

/-- C8: `project_kv` emits, per key: one all-null row at ordinal 0 for JSON
null; one typed row at ordinal 0 for a scalar; for a list of scalars one
row per element carrying the element's type at `ordinal` = index; for a
list with a non-scalar element one `val_json` row per element; and a single
`val_json` row for any other value.  Hence every row has exactly one value
column set unless its logical value was JSON null (then all four are null),
and every metadata row `replace_asset_info_metadata_projection` leaves in
the database for the rewritten info satisfies the same invariant. -/
theorem project_kv_spec (k : String) :
    (projectKv k Json.null = [{ key := k, ordinal := 0 }]) ∧
    (∀ b, projectKv k (Json.bool b) = [{ key := k, ordinal := 0, valBool := some b }]) ∧
    (∀ q, projectKv k (Json.num q) = [{ key := k, ordinal := 0, valNum := some q }]) ∧
    (∀ s, projectKv k (Json.str s) = [{ key := k, ordinal := 0, valStr := some s }]) ∧
    (∀ xs, xs.all isScalar = true →
      (projectKv k (Json.arr xs)).length = xs.length ∧
      ∀ i (hi : i < (projectKv k (Json.arr xs)).length) (hj : i < xs.length),
        claimScalarRow k i (xs.get ⟨i, hj⟩) ((projectKv k (Json.arr xs)).get ⟨i, hi⟩)) ∧
    (∀ xs, xs.all isScalar = false →
      (projectKv k (Json.arr xs)).length = xs.length ∧
      ∀ i (hi : i < (projectKv k (Json.arr xs)).length) (hj : i < xs.length),
        (projectKv k (Json.arr xs)).get ⟨i, hi⟩
          = { key := k, ordinal := i, valJson := some (xs.get ⟨i, hj⟩) }) ∧
    (∀ kvs, projectKv k (Json.obj kvs)
      = [{ key := k, ordinal := 0, valJson := some (Json.obj kvs) }]) ∧
    (∀ v r, r ∈ projectKv k v → exactlyOneValue r = true ∨ allNullValues r = true) ∧
    (∀ db now id um db2, replaceAssetInfoMetadataProjection db now id um = .ok db2 →
      ∀ mr ∈ db2.metas, mr.assetInfoId = id →
        metaExactlyOneValue mr = true ∨ metaAllNullValues mr = true) := by
  refine ⟨rfl, fun b => rfl, fun q => rfl, fun s => rfl, ?_, ?_, fun kvs => rfl,
    projectKv_rows_valid k, ?_⟩
  · intro xs hall
    have hmap : projectKv k (Json.arr xs)
        = xs.enum.map (fun p => projScalarRow k p.1 p.2) := by
      simp [projectKv, hall]
    have hlen : (projectKv k (Json.arr xs)).length = xs.length := by
      rw [hmap]
      simp [List.enum_length]
    refine ⟨hlen, ?_⟩
    intro i hi hj
    have h1 : i < (xs.enum.map (fun p => projScalarRow k p.1 p.2)).length := by
      rw [← hmap]
      exact hi
    have hget : (projectKv k (Json.arr xs)).get ⟨i, hi⟩
        = projScalarRow k i (xs.get ⟨i, hj⟩) := by
      rw [get_of_list_eq hmap i hi h1, List.get_map]
      simp only [List.get_eq_getElem, List.getElem_enum]
    rw [hget]
    cases hx : xs.get ⟨i, hj⟩ with
    | null => exact ⟨rfl, rfl, rfl, rfl, rfl, rfl⟩
    | bool b => exact ⟨rfl, rfl, rfl, rfl, rfl, rfl⟩
    | num q => exact ⟨rfl, rfl, rfl, rfl, rfl, rfl⟩
    | str s => exact ⟨rfl, rfl, rfl, rfl, rfl, rfl⟩
    | arr ys => exact ⟨rfl, rfl, rfl, rfl, rfl, rfl⟩
    | obj fs => exact ⟨rfl, rfl, rfl, rfl, rfl, rfl⟩
  · intro xs hall
    have hallf : ¬ xs.all isScalar = true := by simp [hall]
    have hmap : projectKv k (Json.arr xs)
        = xs.enum.map (fun p => ({ key := k, ordinal := p.1, valJson := some p.2 } : ProjRow)) := by
      simp only [projectKv]
      rw [if_neg hallf]
    have hlen : (projectKv k (Json.arr xs)).length = xs.length := by
      rw [hmap]
      simp [List.enum_length]
    refine ⟨hlen, ?_⟩
    intro i hi hj
    have h1 : i < (xs.enum.map (fun p => ({ key := k, ordinal := p.1, valJson := some p.2 } : ProjRow))).length := by
      rw [← hmap]
      exact hi
    rw [get_of_list_eq hmap i hi h1, List.get_map]
    simp only [List.get_eq_getElem, List.getElem_enum]
  · intro db now id um db2 hok mr hmr hmrid
    simp only [replaceAssetInfoMetadataProjection] at hok
    cases hfind : db.infos.find? (fun i => i.id == id) with
    | none => rw [hfind] at hok; exact absurd hok (by simp)
    | some info =>
        rw [hfind] at hok
        simp only [] at hok
        cases um with
        | none =>
            injection hok with hdb2
            rw [← hdb2] at hmr
            have := List.mem_filter.mp hmr
            exact absurd hmrid (by simpa using this.2)
        | some md =>
            simp only [] at hok
            by_cases hemp : md.isEmpty
            · rw [if_pos hemp] at hok
              injection hok with hdb2
              rw [← hdb2] at hmr
              have := List.mem_filter.mp hmr
              exact absurd hmrid (by simpa using this.2)
            · rw [if_neg hemp] at hok
              injection hok with hdb2
              rw [← hdb2] at hmr
              simp only [] at hmr
              rcases List.mem_append.mp hmr with hold | hnew
              · have := List.mem_filter.mp hold
                exact absurd hmrid (by simpa using this.2)
              · rw [mem_foldl_append] at hnew
                rcases hnew with hinit | ⟨kv, _, hkv⟩
                · exact absurd hinit (by simp)
                · obtain ⟨pr, hpr, rfl⟩ := List.mem_map.mp hkv
                  have hv := projectKv_rows_valid kv.1 kv.2 pr hpr
                  rcases hv with hv | hv
                  · left
                    simpa [metaExactlyOneValue, exactlyOneValue] using hv
                  · right
                    simpa [metaAllNullValues, allNullValues] using hv

/-- Witness: C6 amended theorem at the concrete tag list `["  A ", "b"]`,
where `"a"` occurs once. -/
theorem normalize_tags_amended_witness :
    ((normalizeTags ["  A ", "b"]).count "a"
      = (["  A ", "b"].filter
          (fun s => !(pyStrip s == "") && pyLower (pyStrip s) == "a")).length)
    ∧ ∃ s ∈ ["  A ", "b"], ¬ pyStrip s = "" ∧ "a" = pyLower (pyStrip s) :=
  ⟨(normalize_tags_amended ["  A ", "b"]).1 "a",
   (normalize_tags_amended ["  A ", "b"]).2 "a" (by decide)⟩

/-- Witness: C4 amended theorem at the concrete input `"  Blake3:AB "`,
accepted and normalized to `"blake3:ab"`. -/
theorem hash_validation_amended_witness :
    validateHashFormat "  Blake3:AB " = some "blake3:ab"
    ∧ "blake3:ab" = pyLower (pyStrip "  Blake3:AB ") :=
  ⟨rfl, (hash_validation_amended "  Blake3:AB ").2.1 "blake3:ab" rfl⟩

/-- Witness: C3 amended theorem on `dbSizeThousand`, whose stored size 1000
is overwritten by the positive differing size 2048. -/
theorem upsert_asset_amended_witness :
    getAssetByHash dbSizeThousand "blake3:aa"
      = some { id := 0, hash := some "blake3:aa", sizeBytes := 1000, mimeType := none }
    ∧ ∃ db2 a2 upd,
        upsertAsset dbSizeThousand "blake3:aa" 2048 none = Except.ok (db2, a2, false, upd)
        ∧ a2.sizeBytes = 2048 := by
  refine ⟨rfl, ?_⟩
  obtain ⟨db2, a2, upd, hok, hid, hh, hsz, hrest⟩ :=
    (upsert_asset_amended dbSizeThousand "blake3:aa" 2048 none).1
      { id := 0, hash := some "blake3:aa", sizeBytes := 1000, mimeType := none } rfl
  refine ⟨db2, a2, upd, hok, ?_⟩
  rw [hsz]
  decide

/-- Witness: C8 theorem's scalar-list clause at `["k",
[true, "a"]]`: the row at index 1 is a typed string row with ordinal 1. -/
theorem project_kv_spec_witness :
    claimScalarRow "k" 1 (Json.str "a")
      ((projectKv "k" (Json.arr [Json.bool true, Json.str "a"])).get ⟨1, by decide⟩) :=
  ((project_kv_spec "k").2.2.2.2.1 [Json.bool true, Json.str "a"] (by decide)).2
    1 (by decide) (by decide)

/-- C5: `Modelled from the spec:` the upload pipeline around
`upload_asset_from_temp_path` (`manager.py` lines 183-189; the calling
`process_upload` is not among the sources, so its error handling follows
spec §7).  When the caller supplies a non-empty expected hash and the
computed blake3 hash differs from its normalized form, the upload fails
with `HASH_MISMATCH`, the temp file is removed from the filesystem before
any response, the database is returned untouched (no Asset,
AssetCacheState or AssetInfo row is created), and the rest of the pipeline
never runs. -/
theorem upload_hash_mismatch_spec (db : DB) (fs : FS) (tempPath digest e : String)
    (cont : DB → FS → String → UploadOutcome)
    (hne : ¬ e = "") (hdiff : ¬ ("blake3:" ++ digest) = pyLower (pyStrip e)) :
    uploadHashGate digest (some e) = .error "HASH_MISMATCH"
    ∧ (processUpload db fs tempPath digest (some e) cont).db = db
    ∧ (processUpload db fs tempPath digest (some e) cont).fs = fs.remove tempPath
    ∧ (processUpload db fs tempPath digest (some e) cont).errorCode = some "HASH_MISMATCH"
    ∧ (fs.remove tempPath).isFile tempPath = false := by
  have hc : (!(e == "") && !((("blake3:" ++ digest) : String) == pyLower (pyStrip e)))
      = true := by
    simp [hne, hdiff]
  have hgate : uploadHashGate digest (some e) = .error "HASH_MISMATCH" := by
    simp only [uploadHashGate]
    rw [if_pos hc]
  have hrun : processUpload db fs tempPath digest (some e) cont
      = { db := db, fs := fs.remove tempPath, errorCode := some "HASH_MISMATCH" } := by
    simp only [processUpload]
    rw [hgate]
  have hgone : (fs.remove tempPath).isFile tempPath = false := by
    simp [FS.remove, FS.isFile, List.any_eq_true]
  exact ⟨hgate, by rw [hrun], by rw [hrun], by rw [hrun], hgone⟩

/-- Witness: C5 theorem at a concrete mismatching upload (digest `ab`,
expected `blake3:cd`), with one temp file on disk. -/
theorem upload_hash_mismatch_witness :
    uploadHashGate "ab" (some "blake3:cd") = .error "HASH_MISMATCH"
    ∧ (processUpload emptyDB ⟨[{ path := "/tmp/u", size := 3, mtimeNs := 0 }]⟩
        "/tmp/u" "ab" (some "blake3:cd")
        (fun db fs _ => { db := db, fs := fs, errorCode := none })).db = emptyDB
    ∧ (processUpload emptyDB ⟨[{ path := "/tmp/u", size := 3, mtimeNs := 0 }]⟩
        "/tmp/u" "ab" (some "blake3:cd")
        (fun db fs _ => { db := db, fs := fs, errorCode := none })).fs
      = FS.remove ⟨[{ path := "/tmp/u", size := 3, mtimeNs := 0 }]⟩ "/tmp/u"
    ∧ (processUpload emptyDB ⟨[{ path := "/tmp/u", size := 3, mtimeNs := 0 }]⟩
        "/tmp/u" "ab" (some "blake3:cd")
        (fun db fs _ => { db := db, fs := fs, errorCode := none })).errorCode
      = some "HASH_MISMATCH"
    ∧ (FS.remove ⟨[{ path := "/tmp/u", size := 3, mtimeNs := 0 }]⟩ "/tmp/u").isFile
        "/tmp/u" = false :=
  upload_hash_mismatch_spec emptyDB ⟨[{ path := "/tmp/u", size := 3, mtimeNs := 0 }]⟩
    "/tmp/u" "ab" "blake3:cd"
    (fun db fs _ => { db := db, fs := fs, errorCode := none })
    (by decide) (by decide)

/-- C9 counterexample: the claim says that after a scanner pass over a root
holding a seed asset (hash null) whose only file is gone, the info carries
the `missing` tag and the state has `needs_verify = true` (besides the
deletion).  In fact the seed branch of the per-asset loop only deletes: in
the resulting database no `missing` tag link and no `needs_verify` flag
exists — the tag/verify logic runs only for hashed assets and surviving
states. -/
theorem scanner_seed_drop_counterexample :
    (reconcileCacheStatesForRoot dbSeedDropped ⟨[]⟩ ["/input/"] 100 true).assets = []
    ∧ (reconcileCacheStatesForRoot dbSeedDropped ⟨[]⟩ ["/input/"] 100 true).infos = []
    ∧ (reconcileCacheStatesForRoot dbSeedDropped ⟨[]⟩ ["/input/"] 100 true).cacheStates = []
    ∧ ¬ ((reconcileCacheStatesForRoot dbSeedDropped ⟨[]⟩ ["/input/"] 100 true).infoTags.any
          (fun l => l.tagName == "missing") = true)
    ∧ ¬ ((reconcileCacheStatesForRoot dbSeedDropped ⟨[]⟩ ["/input/"] 100 true).cacheStates.any
          (fun s => s.needsVerify) = true) := by
  decide

/-- C9 (amended): after a scanner pass over a root containing a seed asset
(hash null) whose only file has been removed from disk, the seed `Asset`,
its `AssetCacheState` and its `AssetInfo` rows (with their tag links and
metadata) are deleted; no `missing` system tag is added and no
`needs_verify` flag is set — those updates apply only to hashed assets and
to states whose file still exists.  Stated over the seeded database for any
filesystem missing the file, any time and either tag-update mode. -/
theorem scanner_seed_drop_amended (fs : FS) (now : Nat) (umt : Bool)
    (hmiss : fs.stat? "/input/x.bin" = none) :
    (reconcileCacheStatesForRoot dbSeedDropped fs ["/input/"] now umt).assets = []
    ∧ (reconcileCacheStatesForRoot dbSeedDropped fs ["/input/"] now umt).cacheStates = []
    ∧ (reconcileCacheStatesForRoot dbSeedDropped fs ["/input/"] now umt).infos = []
    ∧ (reconcileCacheStatesForRoot dbSeedDropped fs ["/input/"] now umt).infoTags = []
    ∧ (reconcileCacheStatesForRoot dbSeedDropped fs ["/input/"] now umt).metas = []
    ∧ (reconcileCacheStatesForRoot dbSeedDropped fs ["/input/"] now umt).tags
        = dbSeedDropped.tags := by
  refine ⟨?_, ?_, ?_, ?_, ?_, ?_⟩ <;>
    simp [reconcileCacheStatesForRoot, reconcileAssetStep, getCacheStatesForBases,
      dbSeedDropped, hmiss, deleteOrphanedSeedAsset, deleteAssetCascade,
      deleteCacheStatesByIds, bulkSetNeedsVerify, firstDedup, firstDedupAux,
      infoIdsOfAsset, strStartsWith]

/-- Witness: C9 amended theorem at the empty filesystem, time 100 and tag
updates enabled. -/
theorem scanner_seed_drop_amended_witness :
    (reconcileCacheStatesForRoot dbSeedDropped ⟨[]⟩ ["/input/"] 100 true).infos = []
    ∧ (reconcileCacheStatesForRoot dbSeedDropped ⟨[]⟩ ["/input/"] 100 true).tags
        = dbSeedDropped.tags :=
  ⟨(scanner_seed_drop_amended ⟨[]⟩ 100 true rfl).2.2.1,
   (scanner_seed_drop_amended ⟨[]⟩ 100 true rfl).2.2.2.2.2⟩

/-- Filtering away everything satisfying `p` leaves nothing satisfying
`p`. -/
theorem any_of_filter_not {α : Type} (l : List α) (p : α → Bool) :
    (l.filter (fun x => !(p x))).any p = false := by
  rw [Bool.eq_false_iff]
  intro hcon
  obtain ⟨x, hx, hpx⟩ := List.any_eq_true.mp hcon
  have hm := List.mem_filter.mp hx
  rw [hpx] at hm
  exact absurd hm.2 (by decide)

/-- `delete_asset_info_by_id` on a row the owner clause exposes: the info is
removed together with its tag links and metadata rows, reporting success. -/
theorem deleteAssetInfoById_pos (db : DB) (infoId : Nat) (ownerId : String)
    (hvis : db.infos.any (fun i => i.id == infoId && visibleOwner ownerId i.ownerId) = true) :
    deleteAssetInfoById db infoId ownerId
      = ({ db with infos := db.infos.filter (fun i => !(i.id == infoId && visibleOwner ownerId i.ownerId)), infoTags := db.infoTags.filter (fun l => !(l.assetInfoId == infoId)), metas := db.metas.filter (fun m => !(m.assetInfoId == infoId)) }, true) := by
  simp only [deleteAssetInfoById]
  rw [if_pos hvis]

/-- C2: when the owner check passes and the deleted `AssetInfo` was the last
reference to its asset, `delete_asset_reference(..., delete_content_if_orphan
= true)` deletes the `AssetInfo`, the `Asset` and all of its
`AssetCacheState` rows, and removes exactly the asset's existing non-empty
file paths from disk; the file removal acts on the filesystem only in the
final component, computed after the database value (the post-commit
removal of the source).  When another `AssetInfo` still references the
asset, the asset, its cache states and the filesystem are untouched. -/
theorem delete_asset_reference_spec (db : DB) (fs : FS) (infoId : Nat) (ownerId : String)
    (info : AssetInfoRow)
    (hfind : db.infos.find? (fun i => i.id == infoId) = some info)
    (hvis : db.infos.any (fun i => i.id == infoId && visibleOwner ownerId i.ownerId) = true)
    (hasset : db.assets.any (fun a => a.id == info.assetId) = true) :
    ((db.infos.filter (fun i => !(i.id == infoId && visibleOwner ownerId i.ownerId))).any
        (fun i => i.assetId == info.assetId) = false →
      (deleteAssetReference db fs infoId ownerId true).2.2.2 = true
      ∧ (deleteAssetReference db fs infoId ownerId true).1.assets.any
          (fun a => a.id == info.assetId) = false
      ∧ (deleteAssetReference db fs infoId ownerId true).1.cacheStates.any
          (fun s => s.assetId == info.assetId) = false
      ∧ (deleteAssetReference db fs infoId ownerId true).1.infos.any
          (fun i => i.assetId == info.assetId) = false
      ∧ (deleteAssetReference db fs infoId ownerId true).2.2.1
          = (((db.cacheStates.filter (fun s => s.assetId == info.assetId)).filter
              (fun s => !(s.filePath == ""))).map (fun s => s.filePath)).filter
              (fun p => fs.isFile p)
      ∧ (deleteAssetReference db fs infoId ownerId true).2.1
          = fs.removeAll ((deleteAssetReference db fs infoId ownerId true).2.2.1))
    ∧ ((db.infos.filter (fun i => !(i.id == infoId && visibleOwner ownerId i.ownerId))).any
        (fun i => i.assetId == info.assetId) = true →
      (deleteAssetReference db fs infoId ownerId true).2.2.2 = true
      ∧ (deleteAssetReference db fs infoId ownerId true).1.assets = db.assets
      ∧ (deleteAssetReference db fs infoId ownerId true).1.cacheStates = db.cacheStates
      ∧ (deleteAssetReference db fs infoId ownerId true).2.1 = fs
      ∧ (deleteAssetReference db fs infoId ownerId true).2.2.1 = []) := by
  have hdl := deleteAssetInfoById_pos db infoId ownerId hvis
  constructor
  · intro hnex
    simp only [deleteAssetReference]
    rw [hfind, hdl]
    simp only [Option.map_some', Bool.not_true, Bool.false_eq_true, if_false,
      assetInfoExistsForAssetId]
    rw [if_neg (by rw [hnex]; exact Bool.false_ne_true)]
    simp only []
    rw [if_pos hasset]
    refine ⟨by first | rfl | trivial, ?_, ?_, ?_, by first | rfl | trivial,
      by first | rfl | trivial⟩
    · simp only [deleteAssetCascade]
      exact any_of_filter_not _ _
    · simp only [deleteAssetCascade]
      exact any_of_filter_not _ _
    · simp only [deleteAssetCascade]
      exact any_of_filter_not _ _
  · intro hex
    simp only [deleteAssetReference]
    rw [hfind, hdl]
    simp only [Option.map_some', Bool.not_true, Bool.false_eq_true, if_false,
      assetInfoExistsForAssetId]
    rw [if_pos hex]
    exact ⟨by first | rfl | trivial, by first | rfl | trivial, by first | rfl | trivial,
      by first | rfl | trivial, by first | rfl | trivial⟩

/-- Witness: C2 theorem on `dbLastRef`, whose single info is the last
reference; the asset, its state and its file are all removed. -/
theorem delete_asset_reference_witness :
    (deleteAssetReference dbLastRef fsLastRef 2 "" true).2.2.2 = true
    ∧ (deleteAssetReference dbLastRef fsLastRef 2 "" true).1.assets.any
        (fun a => a.id == 0) = false
    ∧ (deleteAssetReference dbLastRef fsLastRef 2 "" true).1.cacheStates.any
        (fun s => s.assetId == 0) = false
    ∧ (deleteAssetReference dbLastRef fsLastRef 2 "" true).1.infos.any
        (fun i => i.assetId == 0) = false
    ∧ (deleteAssetReference dbLastRef fsLastRef 2 "" true).2.2.1
        = (((dbLastRef.cacheStates.filter (fun s => s.assetId == 0)).filter
            (fun s => !(s.filePath == ""))).map (fun s => s.filePath)).filter
            (fun p => fsLastRef.isFile p)
    ∧ (deleteAssetReference dbLastRef fsLastRef 2 "" true).2.1
        = fsLastRef.removeAll ((deleteAssetReference dbLastRef fsLastRef 2 "" true).2.2.1) :=
  (delete_asset_reference_spec dbLastRef fsLastRef 2 ""
    { id := 2, assetId := 0, ownerId := "", name := "a", previewId := none, userMetadata := none, createdAt := 0, updatedAt := 0, lastAccessTime := 0 }
    rfl rfl rfl).1 rfl

/-- C10: `ingest_file_from_path` resolves a supplied `preview_id` against
the `Asset` table before use (ingest.py lines 65-105): when no asset row
has that id the value is silently dropped — the call behaves exactly as if
no preview had been supplied, so it still succeeds and the stored
`preview_id` is untouched (`update_asset_info_timestamps` with no preview
keeps the old value); when it resolves and the `(asset_id, owner_id, name)`
info already exists, `update_asset_info_timestamps` overwrites the stored
`preview_id` with the supplied one (last writer wins) and stores the row.
The two closing equalities run the full ingest on a two-asset database:
supplying resolvable preview 1 rewrites the stored preview 0 to 1, while
unresolvable preview 99 leaves it at 0. -/
theorem ingest_preview_id_spec :
    (∀ bases fs db now absPath h s mt mime infoName ownerId p um tags torig req,
      db.assets.any (fun a => a.id == p) = false →
      ingestFileFromPath bases fs db now absPath h s mt mime infoName ownerId (some p) um tags torig req
        = ingestFileFromPath bases fs db now absPath h s mt mime infoName ownerId none um tags torig req)
    ∧ (∀ db now info p,
        (updateAssetInfoTimestamps db now info (some p)).2.previewId = some p
        ∧ (updateAssetInfoTimestamps db now info (some p)).1.infos
            = replaceInfoById db.infos (updateAssetInfoTimestamps db now info (some p)).2)
    ∧ (∀ db now info,
        (updateAssetInfoTimestamps db now info none).2.previewId = info.previewId)
    ∧ ((ingestFileFromPath ["/input/"] ⟨[]⟩ dbPrev 10 "/input/a.bin" "blake3:aa" 4 5 none
        (some "a") "" (some 1) none [] "manual" false).map
          (fun x => x.1.infos.map (fun i => (i.id, i.previewId)))) = Except.ok [(3, some 1)]
    ∧ ((ingestFileFromPath ["/input/"] ⟨[]⟩ dbPrev 10 "/input/a.bin" "blake3:aa" 4 5 none
        (some "a") "" (some 99) none [] "manual" false).map
          (fun x => x.1.infos.map (fun i => (i.id, i.previewId)))) = Except.ok [(3, some 0)] := by
  refine ⟨?_, ?_, ?_, rfl, rfl⟩
  · intro bases fs db now absPath h s mt mime infoName ownerId p um tags torig req hnone
    simp only [ingestFileFromPath, hnone, Bool.false_eq_true, reduceIte]
  · intro db now info p
    refine ⟨?_, rfl⟩
    cases hc : info.previewId == some p with
    | false => simp [updateAssetInfoTimestamps, hc]; split <;> rfl
    | true =>
        simp [updateAssetInfoTimestamps, hc]
        have := eq_of_beq hc
        split <;> simp [this]
  · intro db now info
    simp only [updateAssetInfoTimestamps]
    split <;> rfl

/-- Witness: C10 theorem at `dbPrev`: unresolvable preview 99 makes the
ingest identical to a previewless one, and a resolved preview 1 overwrites
the stored preview of the existing info row. -/
theorem ingest_preview_id_witness :
    ingestFileFromPath ["/input/"] ⟨[]⟩ dbPrev 10 "/input/a.bin" "blake3:aa" 4 5 none
        (some "a") "" (some 99) none [] "manual" false
      = ingestFileFromPath ["/input/"] ⟨[]⟩ dbPrev 10 "/input/a.bin" "blake3:aa" 4 5 none
        (some "a") "" none none [] "manual" false
    ∧ (updateAssetInfoTimestamps dbPrev 10 { id := 3, assetId := 0, ownerId := "", name := "a", previewId := some 0, userMetadata := none, createdAt := 0, updatedAt := 0, lastAccessTime := 0 } (some 1)).2.previewId = some 1 :=
  ⟨ingest_preview_id_spec.1 ["/input/"] ⟨[]⟩ dbPrev 10 "/input/a.bin" "blake3:aa" 4 5 none
      (some "a") "" 99 none [] "manual" false (by decide),
   (ingest_preview_id_spec.2.1 dbPrev 10 { id := 3, assetId := 0, ownerId := "", name := "a", previewId := some 0, userMetadata := none, createdAt := 0, updatedAt := 0, lastAccessTime := 0 } 1).1⟩

/-! ### Lemma kit for the ingest idempotence proof -/

theorem find?_map_replace {α : Type} (key : α → Nat) (p : α → Bool) (l : List α)
    (a b : α) (hfind : l.find? p = some a) (hkey : key b = key a) (hp : p b = true) :
    (l.map (fun r => if key r == key b then b else r)).find? p = some b := by
  induction l with
  | nil => exact absurd hfind (by simp)
  | cons x xs ih =>
      rw [List.map_cons, List.find?_cons]
      by_cases hk : (key x == key b) = true
      · rw [if_pos hk, hp]
      · rw [if_neg hk]
        rw [List.find?_cons] at hfind
        cases hpx : p x with
        | true =>
            rw [hpx] at hfind
            have hxa : x = a := by injection hfind
            exact absurd (by rw [hxa, hkey]; simp) hk
        | false =>
            rw [hpx] at hfind
            exact ih hfind

theorem eq_of_key_eq {α : Type} (key : α → Nat) (l : List α)
    (hn : (l.map key).Nodup) (a b : α) (ha : a ∈ l) (hb : b ∈ l)
    (hk : key a = key b) : a = b := by
  induction l with
  | nil => cases ha
  | cons x xs ih =>
      rw [List.map_cons, List.nodup_cons] at hn
      rcases List.mem_cons.mp ha with rfl | ha2
      · rcases List.mem_cons.mp hb with rfl | hb2
        · rfl
        · exact absurd (hk ▸ List.mem_map_of_mem key hb2) hn.1
      · rcases List.mem_cons.mp hb with rfl | hb2
        · exact absurd (hk ▸ List.mem_map_of_mem key ha2) hn.1
        · exact ih hn.2 ha2 hb2

theorem find?_key_of_mem {α : Type} (key : α → Nat) (l : List α)
    (hn : (l.map key).Nodup) (a : α) (ha : a ∈ l) :
    l.find? (fun r => key r == key a) = some a := by
  induction l with
  | nil => cases ha
  | cons x xs ih =>
      rw [List.find?_cons]
      by_cases hk : (key x == key a) = true
      · rw [hk]
        have : x = a := eq_of_key_eq key (x :: xs) hn x a (List.mem_cons_self x xs) ha
          (eq_of_beq hk)
        rw [this]
      · rw [Bool.eq_false_iff.mpr hk]
        rw [List.map_cons, List.nodup_cons] at hn
        rcases List.mem_cons.mp ha with rfl | ha2
        · exact absurd (by simp) hk
        · exact ih hn.2 ha2

theorem map_replace_self {α : Type} (key : α → Nat) (l : List α) (a : α)
    (h : ∀ r ∈ l, key r = key a → r = a) :
    l.map (fun r => if key r == key a then a else r) = l := by
  induction l with
  | nil => rfl
  | cons x xs ih =>
      rw [List.map_cons]
      by_cases hk : (key x == key a) = true
      · rw [if_pos hk, h x (List.mem_cons_self x xs) (eq_of_beq hk)]
        rw [ih (fun r hr => h r (List.mem_cons_of_mem x hr))]
      · rw [if_neg hk, ih (fun r hr => h r (List.mem_cons_of_mem x hr))]

theorem map_key_replace {α : Type} (key : α → Nat) (l : List α) (a : α) :
    (l.map (fun r => if key r == key a then a else r)).map key = l.map key := by
  induction l with
  | nil => rfl
  | cons x xs ih =>
      rw [List.map_cons, List.map_cons, List.map_cons, ih]
      by_cases hk : (key x == key a) = true
      · rw [if_pos hk, eq_of_beq hk]
      · rw [if_neg hk]

theorem dlookup_dictSet_self (d : MetaDict) (k : String) (v : Json) :
    dlookup (dictSet d k v) k = some v := by
  induction d with
  | nil => simp [dictSet, dlookup]
  | cons kv rest ih =>
      by_cases hk : (kv.1 == k) = true
      · simp [dictSet, dlookup, hk]
      · simp only [dictSet, dlookup]
        rw [if_neg hk, dlookup]
        rw [if_neg hk]
        exact ih

theorem beq_flip_false {α : Type} [BEq α] [LawfulBEq α] {a b : α}
    (h : (a == b) = false) : (b == a) = false := by
  rcases Bool.eq_false_or_eq_true (b == a) with hh | hh
  · rw [eq_of_beq hh] at h
    simp at h
  · exact hh

theorem dlookup_dictSet_ne (d : MetaDict) (k : String) (v : Json) (q : String)
    (h : ¬ q = k) :
    dlookup (dictSet d k v) q = dlookup d q := by
  have hqk : (q == k) = false := beq_eq_false_iff_ne.mpr h
  have hkq : (k == q) = false := beq_flip_false hqk
  induction d with
  | nil => simp [dictSet, dlookup, hkq]
  | cons kv rest ih =>
      obtain ⟨k0, v0⟩ := kv
      by_cases hk : (k0 == k) = true
      · simp only [dictSet]
        rw [if_pos hk]
        have hk0q : (k0 == q) = false := by
          rw [eq_of_beq hk]
          exact hkq
        simp [dlookup, hk0q]
      · simp only [dictSet]
        rw [if_neg hk]
        simp only [dlookup]
        rw [ih]

theorem dictSet_idem (d : MetaDict) (k : String) (v : Json) :
    dictSet (dictSet d k v) k v = dictSet d k v := by
  induction d with
  | nil => simp [dictSet]
  | cons kv rest ih =>
      by_cases hk : (kv.1 == k) = true
      · simp [dictSet, hk]
      · simp only [dictSet]
        rw [if_neg hk]
        simp only [dictSet]
        rw [if_neg hk, ih]

theorem dlookup_mergeDict (md : MetaDict) (hn : (dictKeys md).Nodup) :
    ∀ (a : MetaDict) (k : String),
      dlookup (mergeDict a md) k
        = if k ∈ dictKeys md then dlookup md k else dlookup a k := by
  induction md with
  | nil =>
      intro a k
      rw [if_neg (by simp [dictKeys])]
      rfl
  | cons kv rest ih =>
      obtain ⟨k0, v0⟩ := kv
      intro a k
      rw [dictKeys, List.map_cons, List.nodup_cons] at hn
      have hkeys : dictKeys ((k0, v0) :: rest) = k0 :: dictKeys rest := rfl
      have hmg : mergeDict a ((k0, v0) :: rest) = mergeDict (dictSet a k0 v0) rest := rfl
      rw [hmg, ih hn.2, hkeys]
      by_cases hmem : k ∈ dictKeys rest
      · have hne : ¬ k = k0 := fun hkk => hn.1 (hkk ▸ hmem)
        have hb : (k0 == k) = false := beq_eq_false_iff_ne.mpr (fun h => hne h.symm)
        rw [if_pos hmem, if_pos (List.mem_cons.mpr (Or.inr hmem))]
        simp only [dlookup]
        rw [if_neg (by intro hc; rw [hb] at hc; exact Bool.false_ne_true hc)]
      · rw [if_neg hmem]
        by_cases hk0 : k = k0
        · subst hk0
          rw [if_pos (List.mem_cons.mpr (Or.inl rfl))]
          simp only [dlookup]
          rw [if_pos (by simp)]
          exact dlookup_dictSet_self a k v0
        · rw [if_neg (by
            intro hcon
            rcases List.mem_cons.mp hcon with h | h
            · exact hk0 h
            · exact hmem h)]
          exact dlookup_dictSet_ne a k0 v0 k hk0

theorem dictEqv_of_lookup (a b : MetaDict) (h : ∀ k, dlookup a k = dlookup b k) :
    dictEqv a b = true := by
  rw [dictEqv, List.all_eq_true]
  intro k _
  rw [h k]
  simp

theorem updateMetadataWithFilename_char (bases : List String) (fs : FS) (db : DB)
    (now assetInfoId assetId : Nat) (info : AssetInfoRow) (um : Option MetaDict) :
    updateMetadataWithFilename bases fs db now assetInfoId assetId info um
      = (if dictEqv (ingestMergedMeta (info.userMetadata.getD []) um
            (computeFilenameForAsset bases fs db assetId)) (info.userMetadata.getD [])
         then .ok db
         else replaceAssetInfoMetadataProjection db now assetInfoId
            (some (ingestMergedMeta (info.userMetadata.getD []) um
              (computeFilenameForAsset bases fs db assetId)))) := rfl

theorem ingestMergedMeta_stable (current : MetaDict) (um : Option MetaDict)
    (cf : Option String) (hkeys : (dictKeys (um.getD [])).Nodup) (k : String) :
    dlookup (ingestMergedMeta (ingestMergedMeta current um cf) um cf) k
      = dlookup (ingestMergedMeta current um cf) k := by
  cases um with
  | none =>
      cases cf with
      | none => rfl
      | some f =>
          by_cases hf : (f == "") = true
          · simp only [ingestMergedMeta]
            rw [if_pos hf, if_pos hf]
          · simp only [ingestMergedMeta]
            rw [if_neg hf, if_neg hf, dictSet_idem]
  | some md =>
      have hkn : (dictKeys md).Nodup := hkeys
      by_cases he : md.isEmpty = true
      · cases cf with
        | none =>
            simp only [ingestMergedMeta]
            rw [if_pos he, if_pos he]
        | some f =>
            by_cases hf : (f == "") = true
            · simp only [ingestMergedMeta]
              rw [if_pos he, if_pos he, if_pos hf, if_pos hf]
            · simp only [ingestMergedMeta]
              rw [if_pos he, if_pos he, if_neg hf, if_neg hf, dictSet_idem]
      · cases cf with
        | none =>
            simp only [ingestMergedMeta]
            rw [if_neg he, if_neg he]
            have h1 := dlookup_mergeDict md hkn (mergeDict current md) k
            have h2 := dlookup_mergeDict md hkn current k
            rw [h1, h2]
            by_cases hm : k ∈ dictKeys md
            · simp [hm]
            · simp [hm]
        | some f =>
            by_cases hf : (f == "") = true
            · simp only [ingestMergedMeta]
              rw [if_neg he, if_neg he, if_pos hf, if_pos hf]
              have h1 := dlookup_mergeDict md hkn (mergeDict current md) k
              have h2 := dlookup_mergeDict md hkn current k
              rw [h1, h2]
              by_cases hm : k ∈ dictKeys md
              · simp [hm]
              · simp [hm]
            · simp only [ingestMergedMeta]
              rw [if_neg he, if_neg he, if_neg hf, if_neg hf]
              by_cases hkf : k = "filename"
              · subst hkf
                rw [dlookup_dictSet_self, dlookup_dictSet_self]
              · rw [dlookup_dictSet_ne _ _ _ _ hkf, dlookup_dictSet_ne _ _ _ _ hkf]
                have h1 := dlookup_mergeDict md hkn
                  (dictSet (mergeDict current md) "filename" (Json.str f)) k
                have h2 := dlookup_mergeDict md hkn current k
                rw [h1, h2]
                by_cases hm : k ∈ dictKeys md
                · simp [hm]
                · simp only [if_neg hm]
                  rw [dlookup_dictSet_ne _ _ _ _ hkf, h2]
                  simp [hm]

theorem upsertAsset_again (db : DB) (h : String) (s : Int) (m : Option String)
    (db1 : DB) (a : AssetRow) (c u : Bool)
    (hok : upsertAsset db h s m = .ok (db1, a, c, u)) :
    (db1.assets.find? (fun r => r.hash == some h) = some a)
    ∧ ((!(a.sizeBytes == s) && decide (s > 0)) = false)
    ∧ ((strTruthy m && !(a.mimeType == m)) = false)
    ∧ db1.infos = db.infos ∧ db1.cacheStates = db.cacheStates ∧ db1.tags = db.tags
    ∧ db1.infoTags = db.infoTags ∧ db1.metas = db.metas ∧ db.nextId ≤ db1.nextId := by
  cases hfind : db.assets.find? (fun r => r.hash == some h) with
  | none =>
      have hc : (db.assets.any fun r => r.hash == some h) = false := by
        rw [Bool.eq_false_iff]
        intro hcon
        obtain ⟨x, hx, hpx⟩ := List.any_eq_true.mp hcon
        exact absurd hpx (by simpa using List.find?_eq_none.mp hfind x hx)
      have hrun1 : upsertAsset db h s m
          = .ok ({ db with assets := db.assets ++ [{ id := db.nextId, hash := some h, sizeBytes := s, mimeType := if strTruthy m then m else none }], nextId := db.nextId + 1 },
              { id := db.nextId, hash := some h, sizeBytes := s, mimeType := if strTruthy m then m else none }, true, false) := by
        simp only [upsertAsset, hc, Bool.false_eq_true, reduceIte, Bool.not_false]
        rw [List.find?_append, hfind]
        simp only [Option.none_or, List.find?_cons, List.find?_nil]
        have hp : (({ id := db.nextId, hash := some h, sizeBytes := s, mimeType := if strTruthy m then m else none } : AssetRow).hash == some h) = true := by simp
        rw [hp]
      rw [hrun1] at hok
      injection hok with h1
      injection h1 with hdb hrest
      injection hrest with ha hcu
      injection hcu with hc1 hu1
      subst hdb
      subst ha
      set newA : AssetRow := { id := db.nextId, hash := some h, sizeBytes := s, mimeType := if strTruthy m then m else none } with hnew
      have hfind2 : (db.assets ++ [newA]).find? (fun r => r.hash == some h) = some newA := by
        rw [List.find?_append, hfind]
        simp only [Option.none_or, List.find?_cons, List.find?_nil]
        rw [show ((newA.hash == some h) : Bool) = true from by simp]
      have hsz : (!(newA.sizeBytes == s) && decide (s > 0)) = false := by simp
      have hmm : (strTruthy m && !(newA.mimeType == m)) = false := by
        cases hst : strTruthy m with
        | false => rfl
        | true =>
            have hmt : newA.mimeType = m := by rw [hnew]; simp [hst]
            rw [hmt]
            simp
      exact ⟨hfind2, hsz, hmm, rfl, rfl, rfl, rfl, rfl, by simp⟩
  | some asset =>
      have hchar1 := upsert_found_char db h s m asset hfind
      rw [hchar1] at hok
      simp only [] at hok
      set a1 : AssetRow := if !(asset.sizeBytes == s) && decide (s > 0) then
          { asset with sizeBytes := s } else asset with ha1def
      set a2 : AssetRow := if strTruthy m && !(a1.mimeType == m) then
          { a1 with mimeType := m } else a1 with ha2def
      have ha2sz : a2.sizeBytes = a1.sizeBytes := by
        rw [ha2def]
        split <;> rfl
      have ha2id : a2.id = asset.id := by
        rw [ha2def, ha1def]
        split <;> split <;> rfl
      have ha2hash : a2.hash = asset.hash := by
        rw [ha2def, ha1def]
        split <;> split <;> rfl
      have hsz2 : (!(a2.sizeBytes == s) && decide (s > 0)) = false := by
        rw [ha2sz, ha1def]
        cases hc1 : (!(asset.sizeBytes == s) && decide (s > 0)) with
        | true => simp
        | false =>
            simp only [Bool.false_eq_true, reduceIte]
            exact hc1
      have hmm2 : (strTruthy m && !(a2.mimeType == m)) = false := by
        rw [ha2def]
        cases hc2 : (strTruthy m && !(a1.mimeType == m)) with
        | true => simp
        | false =>
            simp only [Bool.false_eq_true, reduceIte]
            exact hc2
      cases hch : (!(a2 == asset)) with
      | false =>
          rw [hch] at hok
          simp only [Bool.false_eq_true, reduceIte] at hok
          injection hok with h1
          injection h1 with hdb hrest
          injection hrest with ha hcu
          injection hcu with hc1 hu1
          subst hdb
          subst ha
          refine ⟨?_, hsz2, hmm2, rfl, rfl, rfl, rfl, rfl, Nat.le_refl _⟩
          have ha2a : a2 = asset := eq_of_beq (by
            rcases Bool.eq_false_or_eq_true (a2 == asset) with hb | hb
            · exact hb
            · rw [hb] at hch
              exact absurd hch (by simp))
          rw [ha2a]
          exact hfind
      | true =>
          rw [hch] at hok
          simp only [reduceIte] at hok
          injection hok with h1
          injection h1 with hdb hrest
          injection hrest with ha hcu
          injection hcu with hc1 hu1
          subst hdb
          subst ha
          have hfind2 : (replaceAssetById db.assets a2).find? (fun r => r.hash == some h)
              = some a2 := find?_replaceAssetById db.assets asset a2 h hfind ha2id ha2hash
          exact ⟨hfind2, hsz2, hmm2, rfl, rfl, rfl, rfl, rfl, Nat.le_refl _⟩

theorem upsertCacheState_again (db : DB) (aid : Nat) (p : String) (mt : Int) :
    (∃ stA, (upsertCacheState db aid p mt).1.cacheStates.find?
          (fun s => s.filePath == p) = some stA
       ∧ (({ stA with mtimeNs := some mt, needsVerify := false } : CacheStateRow) == stA) = true)
    ∧ (upsertCacheState db aid p mt).1.assets = db.assets
    ∧ (upsertCacheState db aid p mt).1.infos = db.infos
    ∧ (upsertCacheState db aid p mt).1.tags = db.tags
    ∧ (upsertCacheState db aid p mt).1.infoTags = db.infoTags
    ∧ (upsertCacheState db aid p mt).1.metas = db.metas
    ∧ db.nextId ≤ (upsertCacheState db aid p mt).1.nextId := by
  cases hfind : db.cacheStates.find? (fun s => s.filePath == p) with
  | none =>
      have hrun1 : upsertCacheState db aid p mt
          = ({ db with cacheStates := db.cacheStates ++ [{ id := db.nextId, assetId := aid, filePath := p, mtimeNs := some mt, needsVerify := false }], nextId := db.nextId + 1 }, true, false) := by
        simp only [upsertCacheState]
        rw [hfind]
      rw [hrun1]
      have hfind2 : ((db.cacheStates ++ [({ id := db.nextId, assetId := aid, filePath := p, mtimeNs := some mt, needsVerify := false } : CacheStateRow)]).find? (fun s => s.filePath == p))
          = some { id := db.nextId, assetId := aid, filePath := p, mtimeNs := some mt, needsVerify := false } := by
        rw [List.find?_append, hfind]
        simp only [Option.none_or, List.find?_cons, List.find?_nil]
        rw [show ((({ id := db.nextId, assetId := aid, filePath := p, mtimeNs := some mt, needsVerify := false } : CacheStateRow).filePath == p) : Bool) = true from by simp]
      exact ⟨⟨_, hfind2, by simp⟩, rfl, rfl, rfl, rfl, rfl, by simp⟩
  | some st =>
      have hp : (st.filePath == p) = true := by
        have := List.find?_some hfind
        simpa using this
      cases hbeq : (({ st with mtimeNs := some mt, needsVerify := false } : CacheStateRow) == st) with
      | true =>
          have hrun1 : upsertCacheState db aid p mt = (db, false, false) := by
            simp only [upsertCacheState]
            rw [hfind]
            simp only []
            rw [if_pos hbeq]
          rw [hrun1]
          exact ⟨⟨st, hfind, hbeq⟩, rfl, rfl, rfl, rfl, rfl, Nat.le_refl _⟩
      | false =>
          have hrun1 : upsertCacheState db aid p mt
              = ({ db with cacheStates := replaceStateById db.cacheStates { st with mtimeNs := some mt, needsVerify := false } }, false, !(st.mtimeNs == some mt)) := by
            simp only [upsertCacheState]
            rw [hfind]
            simp only []
            rw [if_neg (by rw [hbeq]; exact Bool.false_ne_true)]
          rw [hrun1]
          have hfind2 : (replaceStateById db.cacheStates { st with mtimeNs := some mt, needsVerify := false }).find? (fun s => s.filePath == p)
              = some { st with mtimeNs := some mt, needsVerify := false } := by
            have := find?_map_replace (fun (r : CacheStateRow) => r.id)
              (fun s => s.filePath == p) db.cacheStates st
              { st with mtimeNs := some mt, needsVerify := false } hfind rfl (by simpa using hp)
            simpa [replaceStateById] using this
          exact ⟨⟨_, hfind2, by simp⟩, rfl, rfl, rfl, rfl, rfl, Nat.le_refl _⟩

theorem upsertAsset_noop_of_stable (dbX : DB) (h : String) (s : Int) (m : Option String)
    (a : AssetRow) (hf : dbX.assets.find? (fun r => r.hash == some h) = some a)
    (h1 : (!(a.sizeBytes == s) && decide (s > 0)) = false)
    (h2 : (strTruthy m && !(a.mimeType == m)) = false) :
    upsertAsset dbX h s m = .ok (dbX, a, false, false) := by
  rw [upsert_found_char dbX h s m a hf]
  simp only [h1, h2, Bool.false_eq_true, reduceIte]
  rw [show (!(a == a)) = false from by simp]
  simp only [Bool.false_eq_true, reduceIte]

theorem upsertCacheState_noop_of_stable (dbX : DB) (aid : Nat) (p : String)
    (mt : Int) (stA : CacheStateRow)
    (hf : dbX.cacheStates.find? (fun s => s.filePath == p) = some stA)
    (hb : (({ stA with mtimeNs := some mt, needsVerify := false } : CacheStateRow) == stA) = true) :
    upsertCacheState dbX aid p mt = (dbX, false, false) := by
  simp only [upsertCacheState]
  rw [hf]
  simp only []
  rw [if_pos hb]

theorem updateTs_none_char (db : DB) (now : Nat) (info : AssetInfoRow) :
    (updateAssetInfoTimestamps db now info none).2.id = info.id
    ∧ (updateAssetInfoTimestamps db now info none).2.assetId = info.assetId
    ∧ (updateAssetInfoTimestamps db now info none).2.ownerId = info.ownerId
    ∧ (updateAssetInfoTimestamps db now info none).2.name = info.name
    ∧ (updateAssetInfoTimestamps db now info none).2.previewId = info.previewId
    ∧ (updateAssetInfoTimestamps db now info none).2.userMetadata = info.userMetadata
    ∧ (updateAssetInfoTimestamps db now info none).2.updatedAt = now
    ∧ now ≤ (updateAssetInfoTimestamps db now info none).2.lastAccessTime
    ∧ (updateAssetInfoTimestamps db now info none).1
        = { db with infos := replaceInfoById db.infos (updateAssetInfoTimestamps db now info none).2 } := by
  simp only [updateAssetInfoTimestamps]
  split
  · next hlt => exact ⟨rfl, rfl, rfl, rfl, rfl, rfl, rfl, Nat.le_refl _, by first | rfl | trivial⟩
  · next hlt => exact ⟨rfl, rfl, rfl, rfl, rfl, rfl, rfl, Nat.le_of_not_lt hlt, by first | rfl | trivial⟩

theorem updateTs_none_noop (db : DB) (now : Nat) (info : AssetInfoRow)
    (h1 : info.updatedAt = now) (h2 : now ≤ info.lastAccessTime)
    (hrep : replaceInfoById db.infos info = db.infos) :
    updateAssetInfoTimestamps db now info none = (db, info) := by
  have hi2 : ({ info with updatedAt := now } : AssetInfoRow) = info := by
    obtain ⟨a, b, c, d, e, f, g, u, l⟩ := info
    simp only [] at h1
    rw [← h1]
  simp only [updateAssetInfoTimestamps]
  rw [hi2]
  rw [if_neg (Nat.not_lt.mpr h2)]
  rw [hrep]

theorem getOrCreate_found (db : DB) (now aid : Nat) (owner name : String)
    (pv : Option Nat) (info : AssetInfoRow)
    (hf : db.infos.find? (fun i => i.assetId == aid && i.ownerId == owner
        && i.name == name) = some info) :
    getOrCreateAssetInfo db now aid owner name pv = (db, info, false) := by
  simp only [getOrCreateAssetInfo]
  rw [hf]

theorem getOrCreate_missing (db : DB) (now aid : Nat) (owner name : String)
    (pv : Option Nat)
    (hf : db.infos.find? (fun i => i.assetId == aid && i.ownerId == owner
        && i.name == name) = none) :
    getOrCreateAssetInfo db now aid owner name pv
      = ({ db with infos := db.infos ++ [{ id := db.nextId, assetId := aid, ownerId := owner, name := name, previewId := pv, userMetadata := none, createdAt := now, updatedAt := now, lastAccessTime := now }], nextId := db.nextId + 1 },
         { id := db.nextId, assetId := aid, ownerId := owner, name := name, previewId := pv, userMetadata := none, createdAt := now, updatedAt := now, lastAccessTime := now }, true) := by
  simp only [getOrCreateAssetInfo]
  rw [hf]

theorem any_name_append (l l2 : List TagRow) (t : String)
    (h : l.any (fun r => r.name == t) = true) :
    (l ++ l2).any (fun r => r.name == t) = true := by
  obtain ⟨x, hx, hpx⟩ := List.any_eq_true.mp h
  exact List.any_eq_true.mpr ⟨x, List.mem_append_left l2 hx, hpx⟩

theorem ensure_fold_char (ty : String) : ∀ (l : List String) (db : DB),
    (l.foldl (fun db t =>
        if db.tags.any (fun r => r.name == t) then db
        else { db with tags := db.tags ++ [{ name := t, tagType := ty }] }) db).assets = db.assets
    ∧ (l.foldl (fun db t =>
        if db.tags.any (fun r => r.name == t) then db
        else { db with tags := db.tags ++ [{ name := t, tagType := ty }] }) db).cacheStates = db.cacheStates
    ∧ (l.foldl (fun db t =>
        if db.tags.any (fun r => r.name == t) then db
        else { db with tags := db.tags ++ [{ name := t, tagType := ty }] }) db).infos = db.infos
    ∧ (l.foldl (fun db t =>
        if db.tags.any (fun r => r.name == t) then db
        else { db with tags := db.tags ++ [{ name := t, tagType := ty }] }) db).infoTags = db.infoTags
    ∧ (l.foldl (fun db t =>
        if db.tags.any (fun r => r.name == t) then db
        else { db with tags := db.tags ++ [{ name := t, tagType := ty }] }) db).metas = db.metas
    ∧ (l.foldl (fun db t =>
        if db.tags.any (fun r => r.name == t) then db
        else { db with tags := db.tags ++ [{ name := t, tagType := ty }] }) db).nextId = db.nextId
    ∧ (∀ t, db.tags.any (fun r => r.name == t) = true →
        (l.foldl (fun db t =>
          if db.tags.any (fun r => r.name == t) then db
          else { db with tags := db.tags ++ [{ name := t, tagType := ty }] }) db).tags.any
            (fun r => r.name == t) = true)
    ∧ (∀ t ∈ l,
        (l.foldl (fun db t =>
          if db.tags.any (fun r => r.name == t) then db
          else { db with tags := db.tags ++ [{ name := t, tagType := ty }] }) db).tags.any
            (fun r => r.name == t) = true) := by
  intro l
  induction l with
  | nil =>
      intro db
      exact ⟨rfl, rfl, rfl, rfl, rfl, rfl, fun t ht => ht, fun t ht => absurd ht (by simp)⟩
  | cons t0 rest ih =>
      intro db
      rw [List.foldl_cons]
      by_cases hc : db.tags.any (fun r => r.name == t0) = true
      · rw [if_pos hc]
        obtain ⟨e1, e2, e3, e4, e5, e6, emono, emem⟩ := ih db
        refine ⟨e1, e2, e3, e4, e5, e6, emono, ?_⟩
        intro t ht
        rcases List.mem_cons.mp ht with rfl | ht2
        · exact emono t hc
        · exact emem t ht2
      · rw [if_neg hc]
        obtain ⟨e1, e2, e3, e4, e5, e6, emono, emem⟩ :=
          ih { db with tags := db.tags ++ [{ name := t0, tagType := ty }] }
        refine ⟨e1, e2, e3, e4, e5, e6, ?_, ?_⟩
        · intro t ht
          exact emono t (any_name_append db.tags _ t ht)
        · intro t ht
          rcases List.mem_cons.mp ht with rfl | ht2
          · refine emono t ?_
            refine List.any_eq_true.mpr ⟨{ name := t, tagType := ty }, by simp, by simp⟩
          · exact emem t ht2

theorem ensure_noop (db : DB) (ts : List String) (ty : String)
    (h : ∀ t ∈ firstDedup (normalizeTags ts), db.tags.any (fun r => r.name == t) = true) :
    ensureTagsExist db ts ty = db := by
  have hgen : ∀ (l : List String) (d : DB), (∀ t ∈ l, d.tags.any (fun r => r.name == t) = true) →
      l.foldl (fun db t =>
        if db.tags.any (fun r => r.name == t) then db
        else { db with tags := db.tags ++ [{ name := t, tagType := ty }] }) d = d := by
    intro l
    induction l with
    | nil => intro d _; rfl
    | cons t0 rest ih =>
        intro d hall
        rw [List.foldl_cons, if_pos (hall t0 (List.mem_cons_self t0 rest))]
        exact ih d (fun t ht => hall t (List.mem_cons_of_mem t0 ht))
  exact hgen (firstDedup (normalizeTags ts)) db h

theorem any_link_append (l l2 : List InfoTagRow) (p : InfoTagRow → Bool)
    (h : l.any p = true) : (l ++ l2).any p = true := by
  obtain ⟨x, hx, hpx⟩ := List.any_eq_true.mp h
  exact List.any_eq_true.mpr ⟨x, List.mem_append_left l2 hx, hpx⟩

theorem links_fold_char (iid now : Nat) (org : String) : ∀ (l : List String)
    (d : DB) (x y : List String),
    ((l.foldl (fun acc t =>
        let (db, added, already) := acc
        if db.infoTags.any (fun lk => lk.assetInfoId == iid && lk.tagName == t) then
          (db, added, already ++ [t])
        else
          ({ db with infoTags := db.infoTags ++ [{ assetInfoId := iid, tagName := t, origin := org, addedAt := now }] }, added ++ [t], already)) (d, x, y)).1.assets = d.assets)
    ∧ ((l.foldl (fun acc t =>
        let (db, added, already) := acc
        if db.infoTags.any (fun lk => lk.assetInfoId == iid && lk.tagName == t) then
          (db, added, already ++ [t])
        else
          ({ db with infoTags := db.infoTags ++ [{ assetInfoId := iid, tagName := t, origin := org, addedAt := now }] }, added ++ [t], already)) (d, x, y)).1.cacheStates = d.cacheStates)
    ∧ ((l.foldl (fun acc t =>
        let (db, added, already) := acc
        if db.infoTags.any (fun lk => lk.assetInfoId == iid && lk.tagName == t) then
          (db, added, already ++ [t])
        else
          ({ db with infoTags := db.infoTags ++ [{ assetInfoId := iid, tagName := t, origin := org, addedAt := now }] }, added ++ [t], already)) (d, x, y)).1.infos = d.infos)
    ∧ ((l.foldl (fun acc t =>
        let (db, added, already) := acc
        if db.infoTags.any (fun lk => lk.assetInfoId == iid && lk.tagName == t) then
          (db, added, already ++ [t])
        else
          ({ db with infoTags := db.infoTags ++ [{ assetInfoId := iid, tagName := t, origin := org, addedAt := now }] }, added ++ [t], already)) (d, x, y)).1.tags = d.tags)
    ∧ ((l.foldl (fun acc t =>
        let (db, added, already) := acc
        if db.infoTags.any (fun lk => lk.assetInfoId == iid && lk.tagName == t) then
          (db, added, already ++ [t])
        else
          ({ db with infoTags := db.infoTags ++ [{ assetInfoId := iid, tagName := t, origin := org, addedAt := now }] }, added ++ [t], already)) (d, x, y)).1.metas = d.metas)
    ∧ ((l.foldl (fun acc t =>
        let (db, added, already) := acc
        if db.infoTags.any (fun lk => lk.assetInfoId == iid && lk.tagName == t) then
          (db, added, already ++ [t])
        else
          ({ db with infoTags := db.infoTags ++ [{ assetInfoId := iid, tagName := t, origin := org, addedAt := now }] }, added ++ [t], already)) (d, x, y)).1.nextId = d.nextId)
    ∧ (∀ (p : InfoTagRow → Bool), d.infoTags.any p = true →
        (l.foldl (fun acc t =>
        let (db, added, already) := acc
        if db.infoTags.any (fun lk => lk.assetInfoId == iid && lk.tagName == t) then
          (db, added, already ++ [t])
        else
          ({ db with infoTags := db.infoTags ++ [{ assetInfoId := iid, tagName := t, origin := org, addedAt := now }] }, added ++ [t], already)) (d, x, y)).1.infoTags.any p = true)
    ∧ (∀ t ∈ l,
        (l.foldl (fun acc t =>
        let (db, added, already) := acc
        if db.infoTags.any (fun lk => lk.assetInfoId == iid && lk.tagName == t) then
          (db, added, already ++ [t])
        else
          ({ db with infoTags := db.infoTags ++ [{ assetInfoId := iid, tagName := t, origin := org, addedAt := now }] }, added ++ [t], already)) (d, x, y)).1.infoTags.any
          (fun lk => lk.assetInfoId == iid && lk.tagName == t) = true) := by
  intro l
  induction l with
  | nil =>
      intro d x y
      exact ⟨rfl, rfl, rfl, rfl, rfl, rfl, fun p hp => hp, fun t ht => absurd ht (by simp)⟩
  | cons t0 rest ih =>
      intro d x y
      rw [List.foldl_cons]
      dsimp only []
      by_cases hc : d.infoTags.any (fun lk => lk.assetInfoId == iid && lk.tagName == t0) = true
      · rw [if_pos hc]
        obtain ⟨e1, e2, e3, e4, e5, e6, emono, emem⟩ := ih d x (y ++ [t0])
        refine ⟨e1, e2, e3, e4, e5, e6, emono, ?_⟩
        intro t ht
        rcases List.mem_cons.mp ht with rfl | ht2
        · exact emono _ hc
        · exact emem t ht2
      · rw [if_neg hc]
        obtain ⟨e1, e2, e3, e4, e5, e6, emono, emem⟩ :=
          ih { d with infoTags := d.infoTags ++ [{ assetInfoId := iid, tagName := t0, origin := org, addedAt := now }] } (x ++ [t0]) y
        refine ⟨e1, e2, e3, e4, e5, e6, ?_, ?_⟩
        · intro p hp
          exact emono p (any_link_append d.infoTags _ p hp)
        · intro t ht
          rcases List.mem_cons.mp ht with rfl | ht2
          · refine emono _ ?_
            refine List.any_eq_true.mpr ⟨{ assetInfoId := iid, tagName := t, origin := org, addedAt := now }, by simp, by simp⟩
          · exact emem t ht2

theorem links_fold_noop (iid now : Nat) (org : String) : ∀ (l : List String)
    (d : DB) (x y : List String),
    (∀ t ∈ l, d.infoTags.any (fun lk => lk.assetInfoId == iid && lk.tagName == t) = true) →
    (l.foldl (fun acc t =>
        let (db, added, already) := acc
        if db.infoTags.any (fun lk => lk.assetInfoId == iid && lk.tagName == t) then
          (db, added, already ++ [t])
        else
          ({ db with infoTags := db.infoTags ++ [{ assetInfoId := iid, tagName := t, origin := org, addedAt := now }] }, added ++ [t], already)) (d, x, y))
      = (d, x, y ++ l) := by
  intro l
  induction l with
  | nil =>
      intro d x y _
      simp
  | cons t0 rest ih =>
      intro d x y hall
      rw [List.foldl_cons]
      dsimp only []
      rw [if_pos (hall t0 (List.mem_cons_self t0 rest))]
      rw [ih d x (y ++ [t0]) (fun t ht => hall t (List.mem_cons_of_mem t0 ht))]
      simp

theorem addTags_char (db : DB) (now iid : Nat) (ts : List String) (org : String)
    (hinfo : db.infos.any (fun i => i.id == iid) = true) :
    addTagsToAssetInfo db now iid ts org true
      = .ok ((firstDedup (normalizeTags ts)).foldl (fun acc t =>
          let (db, added, already) := acc
          if db.infoTags.any (fun lk => lk.assetInfoId == iid && lk.tagName == t) then
            (db, added, already ++ [t])
          else
            ({ db with infoTags := db.infoTags ++ [{ assetInfoId := iid, tagName := t, origin := org, addedAt := now }] }, added ++ [t], already))
          (ensureTagsExist db (firstDedup (normalizeTags ts)) "user", [], [])) := by
  simp only [addTagsToAssetInfo, hinfo, Bool.not_true, Bool.false_eq_true, reduceIte]

theorem replaceProj_char (db : DB) (now iid : Nat) (md : MetaDict)
    (info : AssetInfoRow)
    (hfind : db.infos.find? (fun i => i.id == iid) = some info) :
    replaceAssetInfoMetadataProjection db now iid (some md)
      = .ok { db with infos := replaceInfoById db.infos { info with userMetadata := some md, updatedAt := now }, metas := db.metas.filter (fun m => !(m.assetInfoId == iid)) ++ (if md.isEmpty then [] else md.foldl (fun acc kv => acc ++ (projectKv kv.1 kv.2).map (fun r => ({ assetInfoId := iid, key := r.key, ordinal := r.ordinal, valStr := r.valStr, valNum := r.valNum, valBool := r.valBool, valJson := r.valJson } : MetaRow))) []) } := by
  simp only [replaceAssetInfoMetadataProjection]
  rw [hfind]
  simp only []
  by_cases he : md.isEmpty = true
  · rw [if_pos he, if_pos he, List.append_nil]
    rfl
  · rw [if_neg he, if_neg he]
    rfl

theorem computeFilename_cacheStates (bases : List String) (fs : FS) (db db2 : DB)
    (aid : Nat) (h : db.cacheStates = db2.cacheStates) :
    computeFilenameForAsset bases fs db aid = computeFilenameForAsset bases fs db2 aid := by
  simp only [computeFilenameForAsset, listCacheStatesByAssetId, h]

theorem filter_idem {α : Type} (l : List α) (p : α → Bool) :
    (l.filter p).filter p = l.filter p := by
  induction l with
  | nil => rfl
  | cons x xs ih =>
      cases hp : p x with
      | true => simp [List.filter_cons, hp, ih]
      | false => simp [List.filter_cons, hp, ih]

theorem any_link_filter_missing (l : List InfoTagRow) (ids : List Nat)
    (iid : Nat) (t : String) (ht : ¬ t = "missing")
    (h : l.any (fun lk => lk.assetInfoId == iid && lk.tagName == t) = true) :
    (l.filter (fun lk => !(lk.tagName == "missing" && ids.contains lk.assetInfoId))).any
      (fun lk => lk.assetInfoId == iid && lk.tagName == t) = true := by
  obtain ⟨x, hx, hpx⟩ := List.any_eq_true.mp h
  have hxt : x.tagName = t := by
    have hand := Bool.and_eq_true_iff.mp hpx
    exact eq_of_beq hand.2
  refine List.any_eq_true.mpr ⟨x, List.mem_filter.mpr ⟨hx, ?_⟩, hpx⟩
  rw [hxt]
  rw [show ((t == "missing") : Bool) = false from beq_eq_false_iff_ne.mpr ht]
  simp

theorem removeMissing_char (db : DB) (aid : Nat) :
    removeMissingTagForAssetId db aid
      = { db with infoTags := db.infoTags.filter (fun l => !(l.tagName == "missing" && (infoIdsOfAsset db aid).contains l.assetInfoId)) } := rfl

theorem removeMissing_again (db db6 : DB) (aid : Nat)
    (hdb : db = removeMissingTagForAssetId db6 aid) (hinfos : db.infos = db6.infos) :
    removeMissingTagForAssetId db aid = db := by
  rw [removeMissing_char]
  have hids : infoIdsOfAsset db aid = infoIdsOfAsset db6 aid := by
    simp only [infoIdsOfAsset, hinfos]
  have htags : db.infoTags = db6.infoTags.filter (fun l => !(l.tagName == "missing" && (infoIdsOfAsset db6 aid).contains l.assetInfoId)) := by
    rw [hdb]
    rfl
  rw [hids, htags, filter_idem]
  rw [hdb]
  rfl

theorem ingest_second_of_stable (bases : List String) (fs : FS) (dbA : DB)
    (now : Nat) (absPath h : String) (s mt : Int) (mime : Option String)
    (name owner : String) (um : Option MetaDict) (tags : List String)
    (torig : String) (assetA : AssetRow) (infoA : AssetInfoRow)
    (stA : CacheStateRow)
    (hname : strTruthy (some name) = true)
    (hfA : dbA.assets.find? (fun r => r.hash == some h) = some assetA)
    (hsz : (!(assetA.sizeBytes == s) && decide (s > 0)) = false)
    (hmm : (strTruthy mime && !(assetA.mimeType == mime)) = false)
    (hstA : dbA.cacheStates.find? (fun st => st.filePath == absPath) = some stA)
    (hstb : (({ stA with mtimeNs := some mt, needsVerify := false } : CacheStateRow) == stA) = true)
    (hq : dbA.infos.find? (fun i => i.assetId == assetA.id && i.ownerId == owner && i.name == name) = some infoA)
    (hup : infoA.updatedAt = now) (hla : now ≤ infoA.lastAccessTime)
    (hrep : replaceInfoById dbA.infos infoA = dbA.infos)
    (hvocab : ∀ t ∈ firstDedup (normalizeTags (firstDedup (normalizeTags (normalizeTags tags)))), dbA.tags.any (fun r => r.name == t) = true)
    (hlinks : ∀ t ∈ firstDedup (normalizeTags (normalizeTags tags)), dbA.infoTags.any (fun lk => lk.assetInfoId == infoA.id && lk.tagName == t) = true)
    (hmeta : dictEqv (ingestMergedMeta (infoA.userMetadata.getD []) um (computeFilenameForAsset bases fs dbA assetA.id)) (infoA.userMetadata.getD []) = true)
    (hrm : removeMissingTagForAssetId dbA assetA.id = dbA) :
    ingestFileFromPath bases fs dbA now absPath h s mt mime (some name) owner none um tags torig false
      = .ok (dbA, { assetCreated := false, assetUpdated := false, stateCreated := false, stateUpdated := false, assetInfoId := some infoA.id }) := by
  have hinfoany : dbA.infos.any (fun i => i.id == infoA.id) = true :=
    List.any_eq_true.mpr ⟨infoA, List.mem_of_find?_eq_some hq, by simp⟩
  simp only [ingestFileFromPath]
  rw [upsertAsset_noop_of_stable dbA h s mime assetA hfA hsz hmm]
  simp only []
  rw [upsertCacheState_noop_of_stable dbA assetA.id absPath mt stA hstA hstb]
  simp only [hname, reduceIte, Option.getD_some]
  rw [getOrCreate_found dbA now assetA.id owner name none infoA hq]
  simp only [Bool.false_eq_true, reduceIte]
  rw [updateTs_none_noop dbA now infoA hup hla hrep]
  simp only [Bool.false_and, Bool.not_false, Bool.false_eq_true, reduceIte]
  by_cases hne : (normalizeTags tags).isEmpty = true
  · rw [if_pos hne]
    simp only []
    rw [updateMetadataWithFilename_char, if_pos hmeta]
    simp only []
    rw [hrm]
  · rw [if_neg hne]
    rw [addTags_char dbA now infoA.id (normalizeTags tags) torig hinfoany]
    rw [ensure_noop dbA (firstDedup (normalizeTags (normalizeTags tags))) "user" hvocab]
    rw [links_fold_noop infoA.id now torig (firstDedup (normalizeTags (normalizeTags tags))) dbA [] [] hlinks]
    simp only []
    rw [updateMetadataWithFilename_char, if_pos hmeta]
    simp only []
    rw [hrm]

theorem tags_step_char (db4 : DB) (now outId : Nat) (norm : List String)
    (torig : String)
    (hany : db4.infos.any (fun i => i.id == outId) = true) :
    ∃ db5 x y, addTagsToAssetInfo db4 now outId norm torig true = .ok (db5, x, y)
      ∧ db5.assets = db4.assets ∧ db5.cacheStates = db4.cacheStates
      ∧ db5.infos = db4.infos ∧ db5.metas = db4.metas ∧ db5.nextId = db4.nextId
      ∧ (∀ t, db4.tags.any (fun r => r.name == t) = true →
          db5.tags.any (fun r => r.name == t) = true)
      ∧ (∀ t ∈ firstDedup (normalizeTags (firstDedup (normalizeTags norm))),
          db5.tags.any (fun r => r.name == t) = true)
      ∧ (∀ t ∈ firstDedup (normalizeTags norm),
          db5.infoTags.any (fun lk => lk.assetInfoId == outId && lk.tagName == t) = true)
      ∧ (∀ p : InfoTagRow → Bool, db4.infoTags.any p = true →
          db5.infoTags.any p = true) := by
  rw [addTags_char db4 now outId norm torig hany]
  obtain ⟨e1, e2, e3, e4, e5, e6, emono, emem⟩ :=
    ensure_fold_char "user" (firstDedup (normalizeTags (firstDedup (normalizeTags norm)))) db4
  obtain ⟨f1, f2, f3, f4, f5, f6, fmono, fmem⟩ :=
    links_fold_char outId now torig (firstDedup (normalizeTags norm))
      (ensureTagsExist db4 (firstDedup (normalizeTags norm)) "user") [] []
  refine ⟨_, _, _, rfl, ?_, ?_, ?_, ?_, ?_, ?_, ?_, ?_, ?_⟩
  · rw [f1]
    exact e1
  · rw [f2]
    exact e2
  · rw [f3]
    exact e3
  · rw [f5]
    exact e5
  · rw [f6]
    exact e6
  · intro t ht
    rw [f4]
    exact emono t ht
  · intro t ht
    rw [f4]
    exact emem t ht
  · intro t ht
    exact fmem t ht
  · intro p hp
    refine fmono p ?_
    have e4b : (ensureTagsExist db4 (firstDedup (normalizeTags norm)) "user").infoTags = db4.infoTags := e4
    rw [e4b]
    exact hp

theorem meta_step_char (bases : List String) (fs : FS) (db5 : DB)
    (now outId aid aid2 : Nat) (owner name : String) (info : AssetInfoRow)
    (um : Option MetaDict)
    (hfid : db5.infos.find? (fun i => i.id == outId) = some info)
    (hids5 : (db5.infos.map (fun i => i.id)).Nodup)
    (hq5 : db5.infos.find? (fun i => i.assetId == aid2 && i.ownerId == owner && i.name == name) = some info)
    (hinfoid : info.id = outId)
    (hup : info.updatedAt = now) (hla : now ≤ info.lastAccessTime)
    (hkeys : (dictKeys (um.getD [])).Nodup) :
    ∃ db6 infoF,
      updateMetadataWithFilename bases fs db5 now outId aid info um = .ok db6
      ∧ db6.assets = db5.assets ∧ db6.cacheStates = db5.cacheStates
      ∧ db6.tags = db5.tags ∧ db6.infoTags = db5.infoTags ∧ db6.nextId = db5.nextId
      ∧ db6.infos.find? (fun i => i.assetId == aid2 && i.ownerId == owner && i.name == name) = some infoF
      ∧ (db6.infos.map (fun i => i.id)).Nodup
      ∧ infoF.id = outId ∧ infoF.updatedAt = now ∧ now ≤ infoF.lastAccessTime
      ∧ ∀ (dbX : DB), dbX.cacheStates = db5.cacheStates →
          dictEqv (ingestMergedMeta (infoF.userMetadata.getD []) um (computeFilenameForAsset bases fs dbX aid)) (infoF.userMetadata.getD []) = true := by
  rw [updateMetadataWithFilename_char]
  by_cases hmeq : dictEqv (ingestMergedMeta (info.userMetadata.getD []) um (computeFilenameForAsset bases fs db5 aid)) (info.userMetadata.getD []) = true
  · rw [if_pos hmeq]
    refine ⟨db5, info, rfl, rfl, rfl, rfl, rfl, rfl, hq5, hids5, hinfoid, hup, hla, ?_⟩
    intro dbX hcs
    rw [computeFilename_cacheStates bases fs dbX db5 aid hcs]
    exact hmeq
  · rw [if_neg hmeq]
    rw [replaceProj_char db5 now outId (ingestMergedMeta (info.userMetadata.getD []) um (computeFilenameForAsset bases fs db5 aid)) info hfid]
    have hq0 : (info.assetId == aid2 && info.ownerId == owner && info.name == name) = true := by
      have := List.find?_some hq5
      simpa using this
    set info2 : AssetInfoRow := { info with userMetadata := some (ingestMergedMeta (info.userMetadata.getD []) um (computeFilenameForAsset bases fs db5 aid)), updatedAt := now } with hinfo2def
    have hq2 : (info2.assetId == aid2 && info2.ownerId == owner && info2.name == name) = true := hq0
    have hfq6 : (replaceInfoById db5.infos info2).find? (fun i => i.assetId == aid2 && i.ownerId == owner && i.name == name) = some info2 := by
      have := find?_map_replace (fun (i : AssetInfoRow) => i.id)
        (fun i => i.assetId == aid2 && i.ownerId == owner && i.name == name)
        db5.infos info info2 hq5 rfl hq2
      simpa [replaceInfoById] using this
    have hids6 : ((replaceInfoById db5.infos info2).map (fun i => i.id)).Nodup := by
      have := map_key_replace (fun (i : AssetInfoRow) => i.id) db5.infos info2
      rw [show (replaceInfoById db5.infos info2).map (fun i => i.id) = db5.infos.map (fun i => i.id) from by simpa [replaceInfoById] using this]
      exact hids5
    refine ⟨_, info2, rfl, rfl, rfl, rfl, rfl, rfl, hfq6, hids6, hinfoid, rfl, hla, ?_⟩
    intro dbX hcs
    rw [computeFilename_cacheStates bases fs dbX db5 aid hcs]
    have hum2 : info2.userMetadata.getD [] = ingestMergedMeta (info.userMetadata.getD []) um (computeFilenameForAsset bases fs db5 aid) := rfl
    rw [hum2]
    refine dictEqv_of_lookup _ _ ?_
    intro k
    exact ingestMergedMeta_stable (info.userMetadata.getD []) um (computeFilenameForAsset bases fs db5 aid) hkeys k

/-- C1: calling `ingest_file_from_path` twice in succession with identical
arguments (here: any argument tuple with a non-blank info name, no preview,
create-missing tag mode, caller metadata with distinct keys, and tags not
normalizing to the reserved `missing` system tag, against a database whose
info ids are unique and below the id counter) returns the same
`asset_info_id` both times; the second call reports `asset_created = false`
(and updates nothing: it returns the first call's database unchanged, so
the tag links and `AssetInfoMeta` rows for that `asset_info_id` are exactly
those after the first call — nothing is duplicated). -/
theorem ingest_idempotent_spec (bases : List String) (fs : FS) (db : DB)
    (now : Nat) (absPath assetHash : String) (s mt : Int) (mime : Option String)
    (name ownerId : String) (um : Option MetaDict) (tags : List String)
    (torig : String) (dbA : DB) (r1 : IngestResult)
    (h1 : ingestFileFromPath bases fs db now absPath assetHash s mt mime (some name) ownerId none um tags torig false = .ok (dbA, r1))
    (hname : strTruthy (some name) = true)
    (hkeys : (dictKeys (um.getD [])).Nodup)
    (hnm : ∀ t ∈ firstDedup (normalizeTags (normalizeTags tags)), ¬ t = "missing")
    (hfresh : ∀ i ∈ db.infos, i.id < db.nextId)
    (hids : (db.infos.map (fun i => i.id)).Nodup) :
    ingestFileFromPath bases fs dbA now absPath assetHash s mt mime (some name) ownerId none um tags torig false
      = .ok (dbA, { assetCreated := false, assetUpdated := false, stateCreated := false, stateUpdated := false, assetInfoId := r1.assetInfoId })
    ∧ r1.assetInfoId.isSome = true := by
  cases hu1 : upsertAsset db assetHash s mime with
  | error e =>
      simp only [ingestFileFromPath] at h1
      rw [hu1] at h1
      exact absurd h1 (by simp)
  | ok quad =>
  obtain ⟨db1, assetA, c1, u1⟩ := quad
  obtain ⟨hfA1, hsz1, hmm1, hinfos1, hcs1, htags1, hit1, hmetas1, hnid1⟩ :=
    upsertAsset_again db assetHash s mime db1 assetA c1 u1 hu1
  obtain ⟨⟨stA, hstA2, hstb2⟩, has2, hin2, htg2, hitg2, hme2, hnid2⟩ :=
    upsertCacheState_again db1 assetA.id absPath mt
  simp only [ingestFileFromPath] at h1
  rw [hu1] at h1
  simp only [] at h1
  simp only [hname, reduceIte, Option.getD_some] at h1
  set db2 := (upsertCacheState db1 assetA.id absPath mt).1 with hdb2def
  cases hg : db2.infos.find? (fun i => i.assetId == assetA.id && i.ownerId == ownerId && i.name == name) with
  | some i0 =>
      rw [getOrCreate_found db2 now assetA.id ownerId name none i0 hg] at h1
      simp only [Bool.false_eq_true, reduceIte] at h1
      obtain ⟨tid, taid, town, tname2, tpv, tum, tup, tla, tdb⟩ := updateTs_none_char db2 now i0
      set i3 := (updateAssetInfoTimestamps db2 now i0 none).2 with hi3def
      rw [tdb] at h1
      set db4 := { db2 with infos := replaceInfoById db2.infos i3 } with hdb4def
      have hq0 : (i0.assetId == assetA.id && i0.ownerId == ownerId && i0.name == name) = true := by
        have := List.find?_some hg
        simpa using this
      have hq3 : (i3.assetId == assetA.id && i3.ownerId == ownerId && i3.name == name) = true := by
        rw [taid, town, tname2]
        exact hq0
      have hfq4 : db4.infos.find? (fun i => i.assetId == assetA.id && i.ownerId == ownerId && i.name == name) = some i3 := by
        have := find?_map_replace (fun (i : AssetInfoRow) => i.id) (fun i => i.assetId == assetA.id && i.ownerId == ownerId && i.name == name) db2.infos i0 i3 hg tid hq3
        simpa [hdb4def, replaceInfoById] using this
      have hids2 : (db2.infos.map (fun i => i.id)).Nodup := by
        rw [hin2, hinfos1]
        exact hids
      have hids4 : (db4.infos.map (fun i => i.id)).Nodup := by
        rw [show db4.infos.map (fun i => i.id) = db2.infos.map (fun i => i.id) from by simpa [hdb4def, replaceInfoById] using map_key_replace (fun (i : AssetInfoRow) => i.id) db2.infos i3]
        exact hids2
      have hfid4 : db4.infos.find? (fun i => i.id == i3.id) = some i3 :=
        find?_key_of_mem (fun (i : AssetInfoRow) => i.id) db4.infos hids4 i3
          (List.mem_of_find?_eq_some hfq4)
      have h4a : db4.assets = db2.assets := rfl
      have h4c : db4.cacheStates = db2.cacheStates := rfl
      have h4t : db4.tags = db2.tags := rfl
      have h4it : db4.infoTags = db2.infoTags := rfl
      have h4m : db4.metas = db2.metas := rfl
      have hany4 : db4.infos.any (fun i => i.id == i3.id) = true :=
        List.any_eq_true.mpr ⟨i3, List.mem_of_find?_eq_some hfq4, by simp⟩
      obtain ⟨db5, xs, ys, haddok, h5a, h5c, h5i, h5m, h5n, h5tmono, h5vocab, h5links, h5itmono⟩ :=
        tags_step_char db4 now i3.id (normalizeTags tags) torig hany4
      simp only [Bool.not_false, Bool.false_and, Bool.false_eq_true, reduceIte] at h1
      rw [haddok] at h1
      simp only [] at h1
      rw [← apply_ite Except.ok] at h1
      set db5u := if (normalizeTags tags).isEmpty = true then db4 else db5 with hdb5udef
      simp only [] at h1
      have h5ua : db5u.assets = db4.assets := by
        rw [hdb5udef]
        split
        · rfl
        · exact h5a
      have h5uc : db5u.cacheStates = db4.cacheStates := by
        rw [hdb5udef]
        split
        · rfl
        · exact h5c
      have h5ui : db5u.infos = db4.infos := by
        rw [hdb5udef]
        split
        · rfl
        · exact h5i
      have h5um : db5u.metas = db4.metas := by
        rw [hdb5udef]
        split
        · rfl
        · exact h5m
      have h5ut : ∀ t ∈ firstDedup (normalizeTags (firstDedup (normalizeTags (normalizeTags tags)))), db5u.tags.any (fun r => r.name == t) = true := by
        intro t ht
        rw [hdb5udef]
        split
        · next hne =>
            rw [List.isEmpty_iff] at hne
            rw [hne] at ht
            exact absurd ht (by simp [normalizeTags, firstDedup, firstDedupAux])
        · next hne => exact h5vocab t ht
      have h5ul : ∀ t ∈ firstDedup (normalizeTags (normalizeTags tags)), db5u.infoTags.any (fun lk => lk.assetInfoId == i3.id && lk.tagName == t) = true := by
        intro t ht
        rw [hdb5udef]
        split
        · next hne =>
            rw [List.isEmpty_iff] at hne
            rw [hne] at ht
            exact absurd ht (by simp [normalizeTags, firstDedup, firstDedupAux])
        · next hne => exact h5links t ht
      have hfq5 : db5u.infos.find? (fun i => i.assetId == assetA.id && i.ownerId == ownerId && i.name == name) = some i3 := by
        rw [h5ui]
        exact hfq4
      have hfid5 : db5u.infos.find? (fun i => i.id == i3.id) = some i3 := by
        rw [h5ui]
        exact hfid4
      have hids5 : (db5u.infos.map (fun i => i.id)).Nodup := by
        rw [h5ui]
        exact hids4
      obtain ⟨db6, infoF, hmetaok, h6a, h6c, h6t, h6it, h6n, hq6, hids6, hFid, hFup, hFla, hFstab⟩ :=
        meta_step_char bases fs db5u now i3.id assetA.id assetA.id ownerId name i3 um hfid5 hids5 hfq5 rfl tup tla hkeys
      rw [hmetaok] at h1
      simp only [] at h1
      injection h1 with hpair
      injection hpair with hDA hR
      subst hDA
      subst hR
      refine ⟨?_, by rfl⟩
      set D7 := removeMissingTagForAssetId db6 assetA.id with hD7def
      have hD7i : D7.infos = db6.infos := rfl
      have hD7a : D7.assets = db2.assets := by
        rw [show D7.assets = db6.assets from rfl, h6a, h5ua, h4a]
      have hD7c : D7.cacheStates = db2.cacheStates := by
        rw [show D7.cacheStates = db6.cacheStates from rfl, h6c, h5uc, h4c]
      have hD7c5 : D7.cacheStates = db5u.cacheStates := by
        rw [show D7.cacheStates = db6.cacheStates from rfl, h6c]
      have hD7t : D7.tags = db5u.tags := by
        rw [show D7.tags = db6.tags from rfl, h6t]
      have hfA7 : D7.assets.find? (fun r => r.hash == some assetHash) = some assetA := by
        rw [hD7a, has2]
        exact hfA1
      have hstA7 : D7.cacheStates.find? (fun st => st.filePath == absPath) = some stA := by
        rw [hD7c]
        exact hstA2
      have hq7 : D7.infos.find? (fun i => i.assetId == assetA.id && i.ownerId == ownerId && i.name == name) = some infoF := by
        rw [hD7i]
        exact hq6
      have hrep7 : replaceInfoById D7.infos infoF = D7.infos := by
        rw [hD7i]
        have huniq : ∀ r ∈ db6.infos, (fun (i : AssetInfoRow) => i.id) r = (fun (i : AssetInfoRow) => i.id) infoF → r = infoF :=
          fun r hr hk => eq_of_key_eq (fun (i : AssetInfoRow) => i.id) db6.infos hids6 r infoF hr (List.mem_of_find?_eq_some hq6) hk
        simpa [replaceInfoById] using map_replace_self (fun (i : AssetInfoRow) => i.id) db6.infos infoF huniq
      have hvocab7 : ∀ t ∈ firstDedup (normalizeTags (firstDedup (normalizeTags (normalizeTags tags)))), D7.tags.any (fun r => r.name == t) = true := by
        intro t ht
        rw [hD7t]
        exact h5ut t ht
      have hlinks7 : ∀ t ∈ firstDedup (normalizeTags (normalizeTags tags)), D7.infoTags.any (fun lk => lk.assetInfoId == infoF.id && lk.tagName == t) = true := by
        intro t ht
        have h6l : db6.infoTags.any (fun lk => lk.assetInfoId == i3.id && lk.tagName == t) = true := by
          rw [h6it]
          exact h5ul t ht
        have hfil := any_link_filter_missing db6.infoTags (infoIdsOfAsset db6 assetA.id) i3.id t (hnm t ht) h6l
        rw [hFid]
        rw [show D7.infoTags = db6.infoTags.filter (fun lk => !(lk.tagName == "missing" && (infoIdsOfAsset db6 assetA.id).contains lk.assetInfoId)) from rfl]
        exact hfil
      have hmeta7 := hFstab D7 hD7c5
      have hrm7 : removeMissingTagForAssetId D7 assetA.id = D7 :=
        removeMissing_again D7 db6 assetA.id rfl rfl
      have hmain := ingest_second_of_stable bases fs D7 now absPath assetHash s mt mime
        name ownerId um tags torig assetA infoF stA hname hfA7 hsz1 hmm1 hstA7 hstb2
        hq7 hFup hFla hrep7 hvocab7 hlinks7 hmeta7 hrm7
      rw [hmain, hFid]
  | none =>
      rw [getOrCreate_missing db2 now assetA.id ownerId name none hg] at h1
      set newI : AssetInfoRow := { id := db2.nextId, assetId := assetA.id, ownerId := ownerId, name := name, previewId := none, userMetadata := none, createdAt := now, updatedAt := now, lastAccessTime := now } with hnewdef
      set db4 := { db2 with infos := db2.infos ++ [newI], nextId := db2.nextId + 1 } with hdb4def
      simp only [reduceIte] at h1
      have hq0 : (newI.assetId == assetA.id && newI.ownerId == ownerId && newI.name == name) = true := by
        rw [hnewdef]
        simp
      have hfq4 : db4.infos.find? (fun i => i.assetId == assetA.id && i.ownerId == ownerId && i.name == name) = some newI := by
        rw [show db4.infos = db2.infos ++ [newI] from rfl]
        rw [List.find?_append, hg]
        simp only [Option.none_or, List.find?_cons, List.find?_nil]
        rw [hq0]
      have hids2 : (db2.infos.map (fun i => i.id)).Nodup := by
        rw [hin2, hinfos1]
        exact hids
      have hfr2 : ∀ i ∈ db2.infos, i.id < db2.nextId := by
        intro i hi
        rw [hin2, hinfos1] at hi
        exact lt_of_lt_of_le (hfresh i hi) (le_trans hnid1 hnid2)
      have hids4 : (db4.infos.map (fun i => i.id)).Nodup := by
        rw [show db4.infos.map (fun i => i.id) = db2.infos.map (fun i => i.id) ++ [db2.nextId] from by rw [show db4.infos = db2.infos ++ [newI] from rfl]; simp [hnewdef]]
        rw [List.nodup_append]
        refine ⟨hids2, by simp, ?_⟩
        intro a ha hb
        rw [List.mem_singleton] at hb
        obtain ⟨i, hi, hieq⟩ := List.mem_map.mp ha
        have := hfr2 i hi
        omega
      have hfid4 : db4.infos.find? (fun i => i.id == newI.id) = some newI :=
        find?_key_of_mem (fun (i : AssetInfoRow) => i.id) db4.infos hids4 newI
          (List.mem_of_find?_eq_some hfq4)
      have h4a : db4.assets = db2.assets := rfl
      have h4c : db4.cacheStates = db2.cacheStates := rfl
      have h4t : db4.tags = db2.tags := rfl
      have h4it : db4.infoTags = db2.infoTags := rfl
      have h4m : db4.metas = db2.metas := rfl
      have hupB : newI.updatedAt = now := by rw [hnewdef]
      have hlaB : now ≤ newI.lastAccessTime := by
        rw [hnewdef]
      have hany4 : db4.infos.any (fun i => i.id == newI.id) = true :=
        List.any_eq_true.mpr ⟨newI, List.mem_of_find?_eq_some hfq4, by simp⟩
      obtain ⟨db5, xs, ys, haddok, h5a, h5c, h5i, h5m, h5n, h5tmono, h5vocab, h5links, h5itmono⟩ :=
        tags_step_char db4 now newI.id (normalizeTags tags) torig hany4
      simp only [Bool.not_false, Bool.false_and, Bool.false_eq_true, reduceIte] at h1
      rw [haddok] at h1
      simp only [] at h1
      rw [← apply_ite Except.ok] at h1
      set db5u := if (normalizeTags tags).isEmpty = true then db4 else db5 with hdb5udef
      simp only [] at h1
      have h5ua : db5u.assets = db4.assets := by
        rw [hdb5udef]
        split
        · rfl
        · exact h5a
      have h5uc : db5u.cacheStates = db4.cacheStates := by
        rw [hdb5udef]
        split
        · rfl
        · exact h5c
      have h5ui : db5u.infos = db4.infos := by
        rw [hdb5udef]
        split
        · rfl
        · exact h5i
      have h5ut : ∀ t ∈ firstDedup (normalizeTags (firstDedup (normalizeTags (normalizeTags tags)))), db5u.tags.any (fun r => r.name == t) = true := by
        intro t ht
        rw [hdb5udef]
        split
        · next hne =>
            rw [List.isEmpty_iff] at hne
            rw [hne] at ht
            exact absurd ht (by simp [normalizeTags, firstDedup, firstDedupAux])
        · next hne => exact h5vocab t ht
      have h5ul : ∀ t ∈ firstDedup (normalizeTags (normalizeTags tags)), db5u.infoTags.any (fun lk => lk.assetInfoId == newI.id && lk.tagName == t) = true := by
        intro t ht
        rw [hdb5udef]
        split
        · next hne =>
            rw [List.isEmpty_iff] at hne
            rw [hne] at ht
            exact absurd ht (by simp [normalizeTags, firstDedup, firstDedupAux])
        · next hne => exact h5links t ht
      have hfq5 : db5u.infos.find? (fun i => i.assetId == assetA.id && i.ownerId == ownerId && i.name == name) = some newI := by
        rw [h5ui]
        exact hfq4
      have hfid5 : db5u.infos.find? (fun i => i.id == newI.id) = some newI := by
        rw [h5ui]
        exact hfid4
      have hids5 : (db5u.infos.map (fun i => i.id)).Nodup := by
        rw [h5ui]
        exact hids4
      obtain ⟨db6, infoF, hmetaok, h6a, h6c, h6t, h6it, h6n, hq6, hids6, hFid, hFup, hFla, hFstab⟩ :=
        meta_step_char bases fs db5u now newI.id assetA.id assetA.id ownerId name newI um hfid5 hids5 hfq5 rfl hupB hlaB hkeys
      rw [hmetaok] at h1
      simp only [] at h1
      injection h1 with hpair
      injection hpair with hDA hR
      subst hDA
      subst hR
      refine ⟨?_, by rfl⟩
      set D7 := removeMissingTagForAssetId db6 assetA.id with hD7def
      have hD7i : D7.infos = db6.infos := rfl
      have hD7a : D7.assets = db2.assets := by
        rw [show D7.assets = db6.assets from rfl, h6a, h5ua, h4a]
      have hD7c : D7.cacheStates = db2.cacheStates := by
        rw [show D7.cacheStates = db6.cacheStates from rfl, h6c, h5uc, h4c]
      have hD7c5 : D7.cacheStates = db5u.cacheStates := by
        rw [show D7.cacheStates = db6.cacheStates from rfl, h6c]
      have hD7t : D7.tags = db5u.tags := by
        rw [show D7.tags = db6.tags from rfl, h6t]
      have hfA7 : D7.assets.find? (fun r => r.hash == some assetHash) = some assetA := by
        rw [hD7a, has2]
        exact hfA1
      have hstA7 : D7.cacheStates.find? (fun st => st.filePath == absPath) = some stA := by
        rw [hD7c]
        exact hstA2
      have hq7 : D7.infos.find? (fun i => i.assetId == assetA.id && i.ownerId == ownerId && i.name == name) = some infoF := by
        rw [hD7i]
        exact hq6
      have hrep7 : replaceInfoById D7.infos infoF = D7.infos := by
        rw [hD7i]
        have huniq : ∀ r ∈ db6.infos, (fun (i : AssetInfoRow) => i.id) r = (fun (i : AssetInfoRow) => i.id) infoF → r = infoF :=
          fun r hr hk => eq_of_key_eq (fun (i : AssetInfoRow) => i.id) db6.infos hids6 r infoF hr (List.mem_of_find?_eq_some hq6) hk
        simpa [replaceInfoById] using map_replace_self (fun (i : AssetInfoRow) => i.id) db6.infos infoF huniq
      have hvocab7 : ∀ t ∈ firstDedup (normalizeTags (firstDedup (normalizeTags (normalizeTags tags)))), D7.tags.any (fun r => r.name == t) = true := by
        intro t ht
        rw [hD7t]
        exact h5ut t ht
      have hlinks7 : ∀ t ∈ firstDedup (normalizeTags (normalizeTags tags)), D7.infoTags.any (fun lk => lk.assetInfoId == infoF.id && lk.tagName == t) = true := by
        intro t ht
        have h6l : db6.infoTags.any (fun lk => lk.assetInfoId == newI.id && lk.tagName == t) = true := by
          rw [h6it]
          exact h5ul t ht
        have hfil := any_link_filter_missing db6.infoTags (infoIdsOfAsset db6 assetA.id) newI.id t (hnm t ht) h6l
        rw [hFid]
        rw [show D7.infoTags = db6.infoTags.filter (fun lk => !(lk.tagName == "missing" && (infoIdsOfAsset db6 assetA.id).contains lk.assetInfoId)) from rfl]
        exact hfil
      have hmeta7 := hFstab D7 hD7c5
      have hrm7 : removeMissingTagForAssetId D7 assetA.id = D7 :=
        removeMissing_again D7 db6 assetA.id rfl rfl
      have hmain := ingest_second_of_stable bases fs D7 now absPath assetHash s mt mime
        name ownerId um tags torig assetA infoF stA hname hfA7 hsz1 hmm1 hstA7 hstb2
        hq7 hFup hFla hrep7 hvocab7 hlinks7 hmeta7 hrm7
      rw [hmain, hFid]

/-- Witness: C1 theorem at a concrete ingest into the empty database (hash
`blake3:aa`, info name `a`, one tag, one metadata key): the second call
returns the first call's database and info id with `asset_created = false`. -/
theorem ingest_idempotent_witness :
    ingestFileFromPath ["/input/"] ⟨[]⟩ emptyDB 10 "/input/a.bin" "blake3:aa" 4 5 none
        (some "a") "" none (some [("k", Json.bool true)]) ["T"] "manual" false
      = .ok ({ assets := [{ id := 0, hash := some "blake3:aa", sizeBytes := 4, mimeType := none }], cacheStates := [{ id := 1, assetId := 0, filePath := "/input/a.bin", mtimeNs := some 5, needsVerify := false }], infos := [{ id := 2, assetId := 0, ownerId := "", name := "a", previewId := none, userMetadata := some [("k", Json.bool true)], createdAt := 10, updatedAt := 10, lastAccessTime := 10 }], tags := [{ name := "t", tagType := "user" }], infoTags := [{ assetInfoId := 2, tagName := "t", origin := "manual", addedAt := 10 }], metas := [{ assetInfoId := 2, key := "k", ordinal := 0, valStr := none, valNum := none, valBool := some true, valJson := none }], nextId := 3 },
           { assetCreated := true, assetUpdated := false, stateCreated := true, stateUpdated := false, assetInfoId := some 2 })
    ∧ ingestFileFromPath ["/input/"] ⟨[]⟩ ({ assets := [{ id := 0, hash := some "blake3:aa", sizeBytes := 4, mimeType := none }], cacheStates := [{ id := 1, assetId := 0, filePath := "/input/a.bin", mtimeNs := some 5, needsVerify := false }], infos := [{ id := 2, assetId := 0, ownerId := "", name := "a", previewId := none, userMetadata := some [("k", Json.bool true)], createdAt := 10, updatedAt := 10, lastAccessTime := 10 }], tags := [{ name := "t", tagType := "user" }], infoTags := [{ assetInfoId := 2, tagName := "t", origin := "manual", addedAt := 10 }], metas := [{ assetInfoId := 2, key := "k", ordinal := 0, valStr := none, valNum := none, valBool := some true, valJson := none }], nextId := 3 } : DB)
        10 "/input/a.bin" "blake3:aa" 4 5 none (some "a") "" none
        (some [("k", Json.bool true)]) ["T"] "manual" false
      = .ok ({ assets := [{ id := 0, hash := some "blake3:aa", sizeBytes := 4, mimeType := none }], cacheStates := [{ id := 1, assetId := 0, filePath := "/input/a.bin", mtimeNs := some 5, needsVerify := false }], infos := [{ id := 2, assetId := 0, ownerId := "", name := "a", previewId := none, userMetadata := some [("k", Json.bool true)], createdAt := 10, updatedAt := 10, lastAccessTime := 10 }], tags := [{ name := "t", tagType := "user" }], infoTags := [{ assetInfoId := 2, tagName := "t", origin := "manual", addedAt := 10 }], metas := [{ assetInfoId := 2, key := "k", ordinal := 0, valStr := none, valNum := none, valBool := some true, valJson := none }], nextId := 3 },
           { assetCreated := false, assetUpdated := false, stateCreated := false, stateUpdated := false, assetInfoId := ({ assetCreated := true, assetUpdated := false, stateCreated := true, stateUpdated := false, assetInfoId := some 2 } : IngestResult).assetInfoId }) :=
  ⟨rfl,
   (ingest_idempotent_spec ["/input/"] ⟨[]⟩ emptyDB 10 "/input/a.bin" "blake3:aa" 4 5 none
      "a" "" (some [("k", Json.bool true)]) ["T"] "manual"
      { assets := [{ id := 0, hash := some "blake3:aa", sizeBytes := 4, mimeType := none }], cacheStates := [{ id := 1, assetId := 0, filePath := "/input/a.bin", mtimeNs := some 5, needsVerify := false }], infos := [{ id := 2, assetId := 0, ownerId := "", name := "a", previewId := none, userMetadata := some [("k", Json.bool true)], createdAt := 10, updatedAt := 10, lastAccessTime := 10 }], tags := [{ name := "t", tagType := "user" }], infoTags := [{ assetInfoId := 2, tagName := "t", origin := "manual", addedAt := 10 }], metas := [{ assetInfoId := 2, key := "k", ordinal := 0, valStr := none, valNum := none, valBool := some true, valJson := none }], nextId := 3 }
      { assetCreated := true, assetUpdated := false, stateCreated := true, stateUpdated := false, assetInfoId := some 2 }
      rfl (by decide) (by decide) (by decide) (by decide) (by decide)).1⟩
